import Mathlib

/-!
Verification of the ESPRIT course mirror (`esprit_complete_downloader.py`).

Strings are modelled as `List Char` (named `Str`).  Python library
functions used by the source (`urllib.parse.unquote`, `re.sub` with a
character class, `str.replace`, `html.unescape`, `html.escape`,
`json.loads`, `os.path.join`, `os.path.dirname`) are given shallow
models below, each documented at its definition.  Filesystem and
network effects are modelled by explicit state passing: a disk is an
association list from paths to byte strings, and every HTTP GET and
every file write performed by an operation is recorded in a trace.
-/

namespace Esprit

/-- Strings as lists of characters. -/
abbrev Str := List Char

/-- Shorthand turning a Lean string literal into our `Str` model. -/
def str (s : String) : Str := s.toList

/-- Characters written via their code points so the development never
has to spell filesystem-hostile characters inline: double quote. -/
def dq : Char := Char.ofNat 34

/-- Single quote (apostrophe). -/
def sq : Char := Char.ofNat 39

/-- Backslash. -/
def bsl : Char := Char.ofNat 92

/-- Opening curly brace. -/
def lbr : Char := Char.ofNat 123

/-- Closing curly brace. -/
def rbr : Char := Char.ofNat 125

/-- Forward slash. -/
def slash : Char := Char.ofNat 47

/-- Percent sign. -/
def pct : Char := Char.ofNat 37

/-- The nine characters removed by the source's cleanup regex
`[<>:"/\\|?*]` (code points 60 62 58 34 47 92 124 63 42). -/
def isIllegal (c : Char) : Bool :=
  [60, 62, 58, 34, 47, 92, 124, 63, 42].contains c.toNat

/-- Model of `re.sub('[<>:"/\\\\|?*]', '', s)`: deleting every
occurrence of a character class is exactly filtering it out. -/
def stripIllegal (s : Str) : Str := s.filter (fun c => !(isIllegal c))

/-- Value of a hex digit, if the character is one (`%xx` escapes accept
both cases, as CPython's `unquote` does). -/
def hexVal (c : Char) : Option Nat :=
  if 48 ≤ c.toNat ∧ c.toNat ≤ 57 then some (c.toNat - 48)
  else if 97 ≤ c.toNat ∧ c.toNat ≤ 102 then some (c.toNat - 87)
  else if 65 ≤ c.toNat ∧ c.toNat ≤ 70 then some (c.toNat - 55)
  else none

/-- Model of `urllib.parse.unquote`: each `%xx` escape (two hex digits)
is decoded to the character with that code point and scanning resumes
after the escape; a `%` not followed by two hex digits is kept
literally.  (CPython additionally UTF-8-decodes multi-byte escape
sequences; the development only ever evaluates ASCII escapes, for
which the two agree.) -/
def unquote : Str → Str
  | [] => []
  | c :: a :: b :: rest2 =>
    if c = pct then
      match hexVal a, hexVal b with
      | some x, some y => Char.ofNat (16 * x + y) :: unquote rest2
      | _, _ => c :: unquote (a :: b :: rest2)
    else c :: unquote (a :: b :: rest2)
  | c :: rest => c :: unquote rest

/-- `sanitize_filename` (line 159): strip the illegal characters from
the percent-decoded name — `re.sub('[<>:"/\\\\|?*]', '', unquote(filename))`. -/
def sanitize_filename (s : Str) : Str := stripIllegal (unquote s)

/-- The filename cleanup inlined in `download_pdf` (line 82), which
applies the two steps in the opposite order:
`unquote(re.sub('[<>:"/\\\\|?*]', '', filename))`. -/
def pdf_filename_safe (s : Str) : Str := unquote (stripIllegal s)

/-- Lower-casing a string, for the source's `.lower()` and the
`re.IGNORECASE` flag. -/
def toLowerStr (s : Str) : Str := s.map Char.toLower

/-- Case-insensitive prefix test (how a literal matches under
`re.IGNORECASE`). -/
def isPrefixCI : Str → Str → Bool
  | [], _ => true
  | _ :: _, [] => false
  | a :: as, b :: bs => (a.toLower == b.toLower) && isPrefixCI as bs

/-- Substring containment. -/
def containsSub : Str → Str → Bool
  | needle, [] => needle.isEmpty
  | needle, c :: t => needle.isPrefixOf (c :: t) || containsSub needle t

/-- Case-insensitive substring containment. -/
def containsSubCI : Str → Str → Bool
  | needle, [] => needle.isEmpty
  | needle, c :: t => isPrefixCI needle (c :: t) || containsSubCI needle t

/-- Entities decoded by the model of `html.unescape`.  CPython decodes
the full HTML5 named-entity table; the source's bodies only ever need
the XML core and the apostrophe forms, which is what we model (all
concrete inputs in this file stay inside this fragment). -/
def namedEnt : List (Str × Char) :=
  [(str "amp;", Char.ofNat 38), (str "lt;", Char.ofNat 60),
   (str "gt;", Char.ofNat 62), (str "quot;", dq),
   (str "apos;", sq), (str "#39;", sq), (str "#x27;", sq)]

/-- Worker for `html_unescape`; the fuel is an upper bound on the
number of scanning steps and is always supplied as the input length,
which suffices since every step consumes at least one character. -/
def unescapeGo : Nat → Str → Str
  | 0, s => s
  | _ + 1, [] => []
  | fuel + 1, c :: rest =>
    if c = Char.ofNat 38 then
      match namedEnt.find? (fun e => e.1.isPrefixOf rest) with
      | some e => e.2 :: unescapeGo fuel (rest.drop e.1.length)
      | none => c :: unescapeGo fuel rest
    else c :: unescapeGo fuel rest

/-- Model of `html.unescape` (entity decoding), on the fragment
described at `namedEnt`. -/
def html_unescape (s : Str) : Str := unescapeGo s.length s

/-- Model of `html.escape(s)` (quote=True): `&` `<` `>` `"` and the
apostrophe are replaced by their entities.  The source's chain of
`str.replace` calls is equivalent to this single character-wise pass
because no replacement string contains a character replaced later. -/
def escape_html (s : Str) : Str :=
  s.foldr (fun c acc =>
    (if c = Char.ofNat 38 then str "&amp;"
     else if c = Char.ofNat 60 then str "&lt;"
     else if c = Char.ofNat 62 then str "&gt;"
     else if c = dq then str "&quot;"
     else if c = sq then str "&#x27;"
     else [c]) ++ acc) []

/-! ### A small JSON reader, modelling `json.loads` on the flat
attachment-metadata blobs.

The blobs carried by `data-bbfile` attributes are flat JSON objects
whose values are strings, numbers, booleans or null.  The reader
parses exactly that fragment and fails (`none`, the model of a raised
`JSONDecodeError`) on anything else; non-string values are kept as
`none` payloads since the source only ever reads string fields (a
later `dict.get` of a non-string field behaves as a falsy/absent value
in every use site of the source). -/

/-- JSON whitespace. -/
def isWS (c : Char) : Bool := [32, 9, 10, 13].contains c.toNat

/-- Drop leading JSON whitespace. -/
def skipWS (s : Str) : Str := s.dropWhile isWS

/-- Parse the remainder of a JSON string literal (after the opening
quote), handling the escapes the blobs use; returns the decoded
content and the input following the closing quote. -/
def parseJStr : Nat → Str → Option (Str × Str)
  | 0, _ => none
  | _ + 1, [] => none
  | fuel + 1, c :: rest =>
    if c = dq then some ([], rest)
    else if c = bsl then
      match rest with
      | e :: rest2 =>
        let dec : Option Char :=
          if e = dq then some dq
          else if e = bsl then some bsl
          else if e = slash then some slash
          else if e.toNat = 110 then some (Char.ofNat 10)
          else if e.toNat = 116 then some (Char.ofNat 9)
          else none
        match dec with
        | some d => (parseJStr fuel rest2).map (fun p => (d :: p.1, p.2))
        | none => none
      | [] => none
    else (parseJStr fuel rest).map (fun p => (c :: p.1, p.2))

/-- Character that may appear in a JSON number token. -/
def isNumChar (c : Char) : Bool :=
  (48 ≤ c.toNat ∧ c.toNat ≤ 57) || c.toNat = 45 || c.toNat = 43 ||
    c.toNat = 46 || c.toNat = 101 || c.toNat = 69

/-- Parse one JSON value of the flat fragment: a string (returned as
`some`), or a number / `true` / `false` / `null` (returned as `none`
payload). -/
def parseJVal (fuel : Nat) (s : Str) : Option (Option Str × Str) :=
  match skipWS s with
  | [] => none
  | c :: rest =>
    if c = dq then (parseJStr fuel rest).map (fun p => (some p.1, p.2))
    else if (str "true").isPrefixOf (c :: rest) then some (none, (c :: rest).drop 4)
    else if (str "false").isPrefixOf (c :: rest) then some (none, (c :: rest).drop 5)
    else if (str "null").isPrefixOf (c :: rest) then some (none, (c :: rest).drop 4)
    else if isNumChar c then some (none, (c :: rest).dropWhile isNumChar)
    else none

/-- Parse the members of a JSON object, starting right after `{` (or
after a `,`), up to and including the closing `}`. -/
def parseJMembers : Nat → Str → Option (List (Str × Option Str) × Str)
  | 0, _ => none
  | fuel + 1, s =>
    match skipWS s with
    | [] => none
    | c :: rest =>
      if c = dq then
        match parseJStr (s.length + 1) rest with
        | none => none
        | some (k, r1) =>
          match skipWS r1 with
          | c2 :: r2 =>
            if c2.toNat = 58 then
              match parseJVal (s.length + 1) r2 with
              | none => none
              | some (v, r3) =>
                match skipWS r3 with
                | c3 :: r4 =>
                  if c3.toNat = 44 then
                    (parseJMembers fuel r4).map (fun p => ((k, v) :: p.1, p.2))
                  else if c3 = rbr then some ([(k, v)], r4)
                  else none
                | [] => none
            else none
          | [] => none
      else none

/-- Model of `json.loads` on the flat object fragment: the whole input
must be one object, possibly surrounded by whitespace. -/
def json_loads (s : Str) : Option (List (Str × Option Str)) :=
  match skipWS s with
  | [] => none
  | c :: rest =>
    if c = lbr then
      match skipWS rest with
      | c2 :: r2 =>
        if c2 = rbr then (if skipWS r2 = [] then some [] else none)
        else
          match parseJMembers (s.length + 1) rest with
          | some (ms, r) => if skipWS r = [] then some ms else none
          | none => none
      | [] => none
    else none

/-- `dict.get(k)` on a parsed blob: the last binding of a duplicated
key wins, as in a Python dict built by `json.loads`; a non-string
value reads as `none` (see the fragment note above). -/
def jget (ms : List (Str × Option Str)) (k : Str) : Option Str :=
  (ms.reverse.find? (fun m => m.1 == k)).bind (fun m => m.2)

/-- Python truthiness of an optional string (`None` and `""` are
falsy). -/
def truthy : Option Str → Bool
  | some s => !s.isEmpty
  | none => false

/-- Python's `a or b` on optional strings. -/
def pyOr (a b : Option Str) : Option Str := if truthy a then a else b

/-! ### The resource-locator scanners.

Each scanner models one `re.findall` / `re.finditer` / `re.search` of
the source, specialised to its pattern.  Matching is implemented
directly: the engine tries every start position in order, and after a
successful match the scan resumes at the match end (non-overlapping
matches, as `findall` produces).  Greedy `[^>]*` runs followed by a
literal are resolved by trying candidate literal positions from the
rightmost one backwards, which is the backtracking order of the
original patterns.  Fuel arguments bound the number of scanning steps
and are always supplied as the input length, which suffices because
every step consumes at least one character. -/

/-- The literal `data-bbfile="`. -/
def bbLit : Str := str "data-bbfile=" ++ [dq]

/-- Does a captured run satisfy `{[^"]+}` — brace, at least one
character, brace?  (The run is already quote-free by construction.) -/
def blobCheck (run : Str) : Bool :=
  (3 ≤ run.length) && (run.head? == some lbr) && (run.getLast? == some rbr)

/-- Scanner for `re.findall(r'data-bbfile="({[^"]+})"', body)`
(line 40), returning the captured blobs. -/
def bbfileBlobGo : Nat → Str → List Str
  | 0, _ => []
  | _ + 1, [] => []
  | fuel + 1, c :: t =>
    if bbLit.isPrefixOf (c :: t) then
      let r := (c :: t).drop bbLit.length
      let run := r.takeWhile (fun x => x ≠ dq)
      match r.dropWhile (fun x => x ≠ dq) with
      | _ :: after =>
        if blobCheck run then run :: bbfileBlobGo fuel after
        else bbfileBlobGo fuel t
      | [] => bbfileBlobGo fuel t
    else bbfileBlobGo fuel t

/-- All blob captures of the `data-bbfile` findall. -/
def bbfileBlobMatches (body : Str) : List Str := bbfileBlobGo body.length body

/-- One candidate position for the `href="([^"]+)"` tail of the
search pattern at line 51: at offset `p` of `rest` there must be
`href="` followed by a non-empty quote-free capture and its closing
quote. -/
def hrefAt (rest : Str) (p : Nat) : Option Str :=
  if (str "href=" ++ [dq]).isPrefixOf (rest.drop p) then
    let r2 := (rest.drop p).drop 6
    let run := r2.takeWhile (fun x => x ≠ dq)
    if run ≠ [] ∧ r2.dropWhile (fun x => x ≠ dq) ≠ [] then some run else none
  else none

/-- Try the candidate positions right-to-left (greedy `[^>]*`). -/
def hrefDesc (rest : Str) : Nat → Option Str
  | 0 => hrefAt rest 0
  | p + 1 => (hrefAt rest (p + 1)).orElse (fun _ => hrefDesc rest p)

/-- Completion `[^>]*href="([^"]+)"` after the blob literal. -/
def hrefCompletion (rest : Str) : Option Str :=
  hrefDesc rest (rest.takeWhile (fun x => x ≠ '>')).length

/-- Generic model of `re.search(lit + tail, body)`: try every
occurrence of the literal in order and complete the first that
succeeds. -/
def searchLitThen {α : Type} (lit : Str) (comp : Str → Option α) :
    Nat → Str → Option α
  | 0, _ => none
  | _ + 1, [] => none
  | fuel + 1, c :: t =>
    if lit.isPrefixOf (c :: t) then
      match comp ((c :: t).drop lit.length) with
      | some a => some a
      | none => searchLitThen lit comp fuel t
    else searchLitThen lit comp fuel t

/-- Model of the `re.search(rf'data-bbfile="{re.escape(match)}"[^>]*href="([^"]+)"', body)`
at line 51, returning the captured href. -/
def hrefAfterBlob (blob body : Str) : Option Str :=
  searchLitThen (bbLit ++ blob ++ [dq]) hrefCompletion body.length body

/-- Scanner for `re.findall(r'href="([^"]*\.pdf[^"]*)"', body, re.IGNORECASE)`
(line 64): an `href="` literal (case-insensitive), a quote-free run
containing `.pdf` (case-insensitive), and the closing quote. -/
def pdfHrefGo : Nat → Str → List Str
  | 0, _ => []
  | _ + 1, [] => []
  | fuel + 1, c :: t =>
    if isPrefixCI (str "href=" ++ [dq]) (c :: t) then
      let r := (c :: t).drop 6
      let run := r.takeWhile (fun x => x ≠ dq)
      match r.dropWhile (fun x => x ≠ dq) with
      | _ :: after =>
        if containsSubCI (str ".pdf") run then run :: pdfHrefGo fuel after
        else pdfHrefGo fuel t
      | [] => pdfHrefGo fuel t
    else pdfHrefGo fuel t

/-- All captures of the direct-PDF-href findall. -/
def pdfHrefMatches (body : Str) : List Str := pdfHrefGo body.length body

/-- One extracted PDF link: url and declared filename. -/
structure PdfLink where
  url : Str
  filename : Str
deriving DecidableEq

/-- `url.split('/')[-1]`. -/
def splitLastSlash (u : Str) : Str :=
  (u.reverse.takeWhile (fun c => c ≠ slash)).reverse

/-- `s.split('?')[0]`. -/
def beforeQuery (u : Str) : Str := u.takeWhile (fun c => c ≠ '?')

/-- Processing of one `data-bbfile` blob match inside
`extract_pdf_links_from_body` (lines 43-61): decode entities, parse
the blob, read `fileName`/`linkName`, keep it only for a `.pdf` name,
and locate the `href` that follows the attribute.  A `none` models the
`except: pass` (parse failure) as well as the silent fall-throughs of
the `if`s. -/
def pdfBlobLink (body blob : Str) : Option PdfLink :=
  match json_loads (html_unescape blob) with
  | none => none
  | some fd =>
    let filename := pyOr (jget fd (str "fileName")) (jget fd (str "linkName"))
    match filename with
    | some f =>
      if f ≠ [] ∧ (str ".pdf").isSuffixOf (toLowerStr f) then
        match hrefAfterBlob blob body with
        | some raw => some ⟨html_unescape raw, f⟩
        | none => none
      else none
    | none => none

/-- The loop body of rule 1 of `extract_pdf_links_from_body`
(lines 43-61), iterated over the blob matches. -/
def pdfBlobGoList (body : Str) : List Str → List PdfLink → List PdfLink
  | [], acc => acc
  | m :: rest, acc =>
    pdfBlobGoList body rest
      (match pdfBlobLink body m with
       | some l => acc ++ [l]
       | none => acc)

/-- Rule 1 of `extract_pdf_links_from_body`: the blob loop
(lines 43-61). -/
def pdfBlobPhase (body : Str) : List PdfLink :=
  pdfBlobGoList body (bbfileBlobMatches body) []

/-- The loop body of rule 2 of `extract_pdf_links_from_body`
(lines 67-72), iterated over the direct-href captures: unescape,
derive a filename from the URL, keep `.pdf` names whose url was not
already captured. -/
def pdfHrefGoList : List Str → List PdfLink → List PdfLink
  | [], acc => acc
  | raw :: rest, acc =>
    pdfHrefGoList rest
      (let url := html_unescape raw
       let filename := beforeQuery (splitLastSlash url)
       if (str ".pdf").isSuffixOf (toLowerStr filename) then
         if acc.any (fun l => l.url == url) then acc
         else acc ++ [⟨url, filename⟩]
       else acc)

/-- `extract_pdf_links_from_body` (lines 32-74): blob rule first, then
the direct-href rule, the latter skipping urls already captured. -/
def extract_pdf_links_from_body (body : Str) : List PdfLink :=
  if body = [] then []
  else pdfHrefGoList (pdfHrefMatches body) (pdfBlobPhase body)

/-- One extracted resource reference, as built by
`extract_resources_from_html`: url, declared filename (the
`attachment` rule sets it, the `image`/`document` rules store `None`),
kind tag, and MIME hint (defaulted to the empty string where the
source's dict has no `mime` key). -/
structure Resource where
  url : Str
  filename : Option Str
  rtype : Str
  mime : Str
deriving DecidableEq

/-- Quote or apostrophe (the `["\']` class). -/
def isQuote (c : Char) : Bool := (c == dq) || (c == sq)

/-- One candidate position for the `data-bbfile="({[^"]+})"` tail of
the finditer pattern at line 118, returning the blob capture and the
input following the match end. -/
def bbAt (rest : Str) (p : Nat) : Option (Str × Str) :=
  if bbLit.isPrefixOf (rest.drop p) then
    let r2 := (rest.drop p).drop bbLit.length
    let run := r2.takeWhile (fun x => x ≠ dq)
    match r2.dropWhile (fun x => x ≠ dq) with
    | _ :: after => if blobCheck run then some (run, after) else none
    | [] => none
  else none

/-- Candidate positions right-to-left (greedy `[^>]*`). -/
def bbDesc (rest : Str) : Nat → Option (Str × Str)
  | 0 => bbAt rest 0
  | p + 1 => (bbAt rest (p + 1)).orElse (fun _ => bbDesc rest p)

/-- Scanner for
`re.finditer(r'href="([^"]+)"[^>]*data-bbfile="({[^"]+})"', body)`
(line 118), returning (href capture, blob capture) pairs. -/
def anchorScanGo : Nat → Str → List (Str × Str)
  | 0, _ => []
  | _ + 1, [] => []
  | fuel + 1, c :: t =>
    if (str "href=" ++ [dq]).isPrefixOf (c :: t) then
      let r := (c :: t).drop 6
      let run := r.takeWhile (fun x => x ≠ dq)
      match r.dropWhile (fun x => x ≠ dq) with
      | _ :: after =>
        if run ≠ [] then
          match bbDesc after (after.takeWhile (fun x => x ≠ '>')).length with
          | some (blob, after2) => (run, blob) :: anchorScanGo fuel after2
          | none => anchorScanGo fuel t
        else anchorScanGo fuel t
      | [] => anchorScanGo fuel t
    else anchorScanGo fuel t

/-- All (href, blob) matches of the attachment finditer. -/
def bbAnchorMatches (body : Str) : List (Str × Str) :=
  anchorScanGo body.length body

/-- Processing of one attachment match (lines 119-137): decode
entities, parse the blob, read `fileName`/`linkName`/`displayName` and
`mimeType`, and keep the reference when the filename is truthy.  A
`none` models both the `except: pass` on a parse failure and the
filename guard falling through. -/
def parseAttachment (m : Str × Str) : Option Resource :=
  let url := html_unescape m.1
  match json_loads (html_unescape m.2) with
  | none => none
  | some fd =>
    let filename :=
      pyOr (pyOr (jget fd (str "fileName")) (jget fd (str "linkName")))
        (jget fd (str "displayName"))
    let mime := (jget fd (str "mimeType")).getD []
    match filename with
    | some f =>
      if f ≠ [] then some ⟨url, some f, str "attachment", mime⟩ else none
    | none => none

/-- The attachment loop body, iterated over the finditer matches. -/
def attachmentGoList : List (Str × Str) → List Resource → List Resource
  | [], acc => acc
  | m :: rest, acc =>
    attachmentGoList rest
      (match parseAttachment m with
       | some r => acc ++ [r]
       | none => acc)

/-- Rule 1 of `extract_resources_from_html`: the attachment loop. -/
def attachmentPhase (body : Str) : List Resource :=
  attachmentGoList (bbAnchorMatches body) []

/-- One candidate position for the `src=["\']([^"\']+)["\']` tail of
the img pattern at line 140 (case-insensitive `src=`; either quote may
open and either may close). -/
def srcAt (rest : Str) (p : Nat) : Option (Str × Str) :=
  if isPrefixCI (str "src=") (rest.drop p) then
    match (rest.drop p).drop 4 with
    | q :: r2 =>
      if isQuote q then
        let run := r2.takeWhile (fun x => !(isQuote x))
        match r2.dropWhile (fun x => !(isQuote x)) with
        | _ :: after => if run ≠ [] then some (run, after) else none
        | [] => none
      else none
    | [] => none
  else none

/-- Candidate positions right-to-left; position 0 is excluded because
the pattern requires `[^>]+` (at least one character) after `<img`. -/
def srcDesc (rest : Str) : Nat → Option (Str × Str)
  | 0 => none
  | p + 1 => (srcAt rest (p + 1)).orElse (fun _ => srcDesc rest p)

/-- Scanner for `re.findall(r'<img[^>]+src=["\']([^"\']+)["\']', body, re.IGNORECASE)`
(line 140). -/
def imgScanGo : Nat → Str → List Str
  | 0, _ => []
  | _ + 1, [] => []
  | fuel + 1, c :: t =>
    if isPrefixCI (str "<img") (c :: t) then
      let rest := (c :: t).drop 4
      match srcDesc rest (rest.takeWhile (fun x => x ≠ '>')).length with
      | some (run, after) => run :: imgScanGo fuel after
      | none => imgScanGo fuel t
    else imgScanGo fuel t

/-- All src captures of the image findall. -/
def imgMatches (body : Str) : List Str := imgScanGo body.length body

/-- The office-document extensions of the pattern at line 149. -/
def docExts : List Str :=
  [str "doc", str "docx", str "xls", str "xlsx", str "ppt", str "pptx"]

/-- After a dot: one of the extensions (case-insensitive), then either
the end of the capture or a `?` (the optional query). -/
def docTailOk (t : Str) : Bool :=
  docExts.any (fun e =>
    isPrefixCI e t &&
      (let r := t.drop e.length
       r.isEmpty || (r.head? == some '?')))

/-- Does a quote-free run parse as
`[^"\']+\.(?:doc|docx|xls|xlsx|ppt|pptx)(?:\?[^"\']*)?` in full? -/
def docRunOkGo : Str → Nat → Bool
  | [], _ => false
  | c :: t, i => ((1 ≤ i) && (c == '.') && docTailOk t) || docRunOkGo t (i + 1)

/-- Entry point of the decomposition test. -/
def docRunOk (run : Str) : Bool := docRunOkGo run 0

/-- Scanner for the office-document findall at line 149
(case-insensitive, either quote). -/
def docScanGo : Nat → Str → List Str
  | 0, _ => []
  | _ + 1, [] => []
  | fuel + 1, c :: t =>
    if isPrefixCI (str "href=") (c :: t) then
      match (c :: t).drop 5 with
      | q :: r2 =>
        if isQuote q then
          let run := r2.takeWhile (fun x => !(isQuote x))
          match r2.dropWhile (fun x => !(isQuote x)) with
          | _ :: after =>
            if run ≠ [] && docRunOk run then run :: docScanGo fuel after
            else docScanGo fuel t
          | [] => docScanGo fuel t
        else docScanGo fuel t
      | [] => docScanGo fuel t
    else docScanGo fuel t

/-- All captures of the office-document findall. -/
def docMatches (body : Str) : List Str := docScanGo body.length body

/-- The image loop body, iterated over the src captures. -/
def imageGoList : List Str → List Resource → List Resource
  | [], acc => acc
  | raw :: rest, acc =>
    imageGoList rest
      (let url := html_unescape raw
       if (str "data:").isPrefixOf url then acc
       else if acc.any (fun r => r.url == url) then acc
       else acc ++ [⟨url, none, str "image", []⟩])

/-- Rule 2 of `extract_resources_from_html` (lines 141-146): images,
skipping `data:` URIs and urls already captured. -/
def imagePhase (body : Str) (acc : List Resource) : List Resource :=
  imageGoList (imgMatches body) acc

/-- The office-document loop body, iterated over the href captures. -/
def documentGoList : List Str → List Resource → List Resource
  | [], acc => acc
  | raw :: rest, acc =>
    documentGoList rest
      (let url := html_unescape raw
       if acc.any (fun r => r.url == url) then acc
       else acc ++ [⟨url, none, str "document", []⟩])

/-- Rule 3 of `extract_resources_from_html` (lines 150-153): office
documents, skipping urls already captured. -/
def documentPhase (body : Str) (acc : List Resource) : List Resource :=
  documentGoList (docMatches body) acc

/-- `extract_resources_from_html` (lines 110-155).  The `base_url`
parameter is accepted and, as in the source, never used. -/
def extract_resources_from_html (body _base_url : Str) : List Resource :=
  if body = [] then []
  else documentPhase body (imagePhase body (attachmentPhase body))

/-! ### Filesystem and network state.

The disk is an association list from absolute paths to file bytes; a
run additionally records, in order, every HTTP GET it issues (tagged 0
for the attachment/embedded-PDF downloader `download_pdf`, 1 for the
embedded-resource downloader `download_resource`) and every file write
(tagged 0 for PDFs/attachments, 1 for embedded resources, 2 for
captured HTML pages).  The remote side is a deterministic oracle
giving each URL an HTTP status and a body, which models an unchanged
remote tree across runs.  Directories are implicit (`os.makedirs`
never fails in the model) and `os.path.abspath` is the identity (all
modelled paths are already absolute and free of `.`/`..`
segments). -/

/-- Deterministic remote oracle: status code and bytes per URL. -/
structure Net where
  status : Str → Nat
  content : Str → Str

/-- Run state: the disk plus the fetch and write traces. -/
structure St where
  disk : List (Str × Str)
  fetched : List (Nat × Str)
  writes : List (Nat × Str)

/-- `os.path.isfile`. -/
def isfile (d : List (Str × Str)) (p : Str) : Bool := d.any (fun e => e.1 == p)

/-- Model of `os.path.join(a, b)`: `b` when `b` is absolute, else `a`
plus a separator plus `b` — the two cases the source can produce. -/
def pjoin (a b : Str) : Str :=
  if b.head? == some slash then b else a ++ [slash] ++ b

/-- Model of `os.path.dirname`: everything before the last separator
(empty when there is none; the root-path corner where CPython keeps a
lone `/` is never reached by the modelled paths). -/
def dirname (p : Str) : Str :=
  match p.reverse.dropWhile (fun c => c ≠ slash) with
  | [] => []
  | _ :: rest => rest.reverse

/-- Index of the first occurrence of a substring. -/
def findSubPos : Str → Str → Option Nat
  | needle, [] => if needle.isEmpty then some 0 else none
  | needle, c :: t =>
    if needle.isPrefixOf (c :: t) then some 0
    else (findSubPos needle t).map (fun i => i + 1)

/-- `download_pdf` (lines 77-106): resolve a site-relative URL, build
the target path with the inline cleanup (strip illegal characters,
then percent-decode), issue the GET (always — the existence check
comes after the response), and write the body only when the status is
200 and the target file does not exist yet.  Returns the updated state
and the source's boolean (`True` exactly when a new file was
written). -/
def download_pdf (site url0 filename save_path : Str) (net : Net) (s : St) :
    St × Bool :=
  let url := if url0.head? == some slash then site ++ url0 else url0
  let filename_safe := pdf_filename_safe filename
  let download_location := pjoin save_path filename_safe
  let s1 : St := { s with fetched := s.fetched ++ [(0, url)] }
  if net.status url = 200 then
    if isfile s1.disk download_location then (s1, false)
    else
      ({ s1 with
          disk := (download_location, net.content url) :: s1.disk,
          writes := s1.writes ++ [(0, download_location)] }, true)
  else (s1, false)

/-- The `parsed.path` of `urlparse`, on the URL shapes the fetcher
produces (absolute `scheme://host/path?query` or already-path-only
strings); query and fragment are cut off. -/
def urlPath (u : Str) : Str :=
  match findSubPos (str "://") u with
  | some i =>
    ((u.drop (i + 3)).dropWhile (fun c => c ≠ slash)).takeWhile
      (fun c => c ≠ '?' ∧ c.toNat ≠ 35)
  | none => u.takeWhile (fun c => c ≠ '?' ∧ c.toNat ≠ 35)

/-- Stand-in for `hashlib.md5(url.encode()).hexdigest()[:8]`: a
deterministic eight-hex-digit function of the URL.  (The exact md5
digest is irrelevant to every claim; no theorem evaluates this.) -/
def hashStub (u : Str) : Str :=
  let h := u.foldl (fun a c => (a * 31 + c.toNat) % 4294967296) 7
  (Nat.toDigits 16 (h + 4294967296)).drop 1

/-- Filename derivation of `download_resource` when no filename was
declared (lines 172-181): last path segment of the URL, or a
synthesized `resource_<hash><ext>` name with an image-extension
heuristic. -/
def deriveFilename (url : Str) : Str :=
  let filename := beforeQuery (splitLastSlash (urlPath url))
  if filename ≠ [] then filename
  else
    let lower := toLowerStr url
    let ext :=
      if containsSub (str "image") lower || containsSub (str ".jpg") lower ||
          containsSub (str ".png") lower || containsSub (str ".gif") lower
      then str ".jpg" else str ".bin"
    str "resource_" ++ hashStub url ++ ext

/-- `download_resource` (lines 164-202): resolve the URL (site-relative
via the base origin; non-`http`, non-relative fails immediately with
no GET), derive and sanitize the filename, skip with success if the
target exists, else GET and write on status 200.  Returns the updated
state and the local filename on success (`None` models the `return
None` paths and the swallowed network exception). -/
def download_resource (site url0 : Str) (filename0 : Option Str)
    (save_path : Str) (net : Net) (s : St) : St × Option Str :=
  let resolved : Option Str :=
    if url0.head? == some slash then some (site ++ url0)
    else if (str "http").isPrefixOf url0 then some url0
    else none
  match resolved with
  | none => (s, none)
  | some url =>
    let filename :=
      match filename0 with
      | some f => if f ≠ [] then f else deriveFilename url
      | none => deriveFilename url
    let filename_safe := sanitize_filename filename
    let download_location := pjoin save_path filename_safe
    if isfile s.disk download_location then (s, some filename_safe)
    else
      let s1 : St := { s with fetched := s.fetched ++ [(1, url)] }
      if net.status url = 200 then
        ({ s1 with
            disk := (download_location, net.content url) :: s1.disk,
            writes := s1.writes ++ [(1, download_location)] }, some filename_safe)
      else (s1, none)

/-! ### The markup rewriter inside `save_html_page`. -/

/-- Model of `str.replace(old, new)` for non-empty `old`: scan left to
right, substituting non-overlapping occurrences.  The fuel is the
input length plus one, enough since each step consumes at least one
character. -/
def replaceGo : Nat → Str → Str → Str → Str
  | 0, _, _, s => s
  | _ + 1, _, _, [] => []
  | fuel + 1, old, new, c :: t =>
    if old ≠ [] ∧ old.isPrefixOf (c :: t) then
      new ++ replaceGo fuel old new ((c :: t).drop old.length)
    else c :: replaceGo fuel old new t

/-- `s.replace(old, new)`. -/
def py_replace (s old new : Str) : Str := replaceGo (s.length + 1) old new s

/-- The four textual URL substitutions of the non-image branch
(lines 304-307): `href=`/`src=` in double and single quotes. -/
def replace4 (mb old new : Str) : Str :=
  let m1 := py_replace mb (str "href=" ++ [dq] ++ old ++ [dq])
    (str "href=" ++ [dq] ++ new ++ [dq])
  let m2 := py_replace m1 (str "href=" ++ [sq] ++ old ++ [sq])
    (str "href=" ++ [sq] ++ new ++ [sq])
  let m3 := py_replace m2 (str "src=" ++ [dq] ++ old ++ [dq])
    (str "src=" ++ [dq] ++ new ++ [dq])
  py_replace m3 (str "src=" ++ [sq] ++ old ++ [sq])
    (str "src=" ++ [sq] ++ new ++ [sq])

/-- The `<img>` replacement tag built at lines 296/300. -/
def imgTag (new_url alt : Str) : Str :=
  str "<img src=" ++ [dq] ++ new_url ++ [dq] ++ str " alt=" ++ [dq] ++ alt ++
    [dq] ++ str " style=" ++ [dq] ++ str "max-width: 100%; height: auto;" ++
    [dq] ++ str "> <p></p>"

/-- The `re.search(r'href="..."[^>]*data-bbfile="({[^"]+})"', body)`
at line 290, returning the blob capture. -/
def searchHrefBB (old mb : Str) : Option Str :=
  searchLitThen (str "href=" ++ [dq] ++ old ++ [dq])
    (fun rest =>
      (bbDesc rest (rest.takeWhile (fun x => x ≠ '>')).length).map
        (fun p => p.1))
    mb.length mb

/-- Like `bbAt` but for `data-bbfile="[^"]*"` (no brace requirement,
possibly empty), returning only the input after the closing quote. -/
def bbAnyAt (rest : Str) (p : Nat) : Option Str :=
  if bbLit.isPrefixOf (rest.drop p) then
    match ((rest.drop p).drop bbLit.length).dropWhile (fun x => x ≠ dq) with
    | _ :: after => some after
    | [] => none
  else none

/-- Candidate positions right-to-left. -/
def bbAnyDesc (rest : Str) : Nat → Option Str
  | 0 => bbAnyAt rest 0
  | p + 1 => (bbAnyAt rest (p + 1)).orElse (fun _ => bbAnyDesc rest p)

/-- The lazy `.*?</a>` tail: the input after the first `</a>`, failing
on a newline before it (`.` does not cross newlines). -/
def closeAnchor : Nat → Str → Option Str
  | 0, _ => none
  | _ + 1, [] => none
  | fuel + 1, c :: t =>
    if (str "</a>").isPrefixOf (c :: t) then some ((c :: t).drop 4)
    else if c.toNat = 10 then none
    else closeAnchor fuel t

/-- Completion of the anchor pattern
`<a[^>]*href="U"[^>]*data-bbfile="[^"]*"[^>]*>.*?</a>` after `<a`,
trying the rightmost `href="U"` and `data-bbfile="` candidates (the
greedy order; deeper joint backtracking across the stages never
matters on attribute-shaped markup).  Returns the input after the
whole match. -/
def anchorTailAt (u rest : Str) (p1 : Nat) : Option Str :=
  let lit1 := str "href=" ++ [dq] ++ u ++ [dq]
  if lit1.isPrefixOf (rest.drop p1) then
    let rest2 := (rest.drop p1).drop lit1.length
    match bbAnyDesc rest2 (rest2.takeWhile (fun x => x ≠ '>')).length with
    | some rest4 =>
      match rest4.dropWhile (fun x => x ≠ '>') with
      | _ :: rest6 => closeAnchor (rest6.length + 1) rest6
      | [] => none
    | none => none
  else none

/-- `href="U"` candidate positions right-to-left. -/
def anchorDesc (u rest : Str) : Nat → Option Str
  | 0 => anchorTailAt u rest 0
  | p + 1 => (anchorTailAt u rest (p + 1)).orElse (fun _ => anchorDesc u rest p)

/-- `re.sub(anchor-pattern, img, mb, count=1)`: locate the first full
anchor match and splice the replacement; an unmatched pattern leaves
the body unchanged. -/
def findAnchorGo (u : Str) : Nat → Str → Option (Str × Str)
  | 0, _ => none
  | _ + 1, [] => none
  | fuel + 1, c :: t =>
    if (str "<a").isPrefixOf (c :: t) then
      let rest := (c :: t).drop 2
      match anchorDesc u rest (rest.takeWhile (fun x => x ≠ '>')).length with
      | some suffix => some ([], suffix)
      | none => (findAnchorGo u fuel t).map (fun pr => (c :: pr.1, pr.2))
    else (findAnchorGo u fuel t).map (fun pr => (c :: pr.1, pr.2))

/-- First-match anchor substitution (the `count=1` sub). -/
def subFirstAnchor (u img mb : Str) : Str :=
  match findAnchorGo u mb.length mb with
  | some (pre, suf) => pre ++ img ++ suf
  | none => mb

/-- The image-attachment rewrite branch (lines 283-301): re-locate the
structured blob next to the URL, read the alt text from it (falling
back, on a parse failure, to the declared filename, unescaped — the
`except` branch), and replace the whole anchor with an `<img>` tag.
When the blob cannot be re-located nothing is substituted (the
`if bbfile_match:` guard has no else). -/
def imageRewrite (r : Resource) (old new_url mb : Str) : Str :=
  match searchHrefBB old mb with
  | none => mb
  | some blob =>
    match json_loads (html_unescape blob) with
    | some fd =>
      let alt := (pyOr (jget fd (str "alternativeText"))
        (some ((jget fd (str "displayName")).getD []))).getD []
      subFirstAnchor old (imgTag new_url (escape_html alt)) mb
    | none => subFirstAnchor old (imgTag new_url (r.filename.getD [])) mb

/-- The per-resource loop of `save_html_page` (lines 271-309): fetch
each reference in order and, on success, rewrite the body (image
attachments via the anchor substitution, everything else via the four
textual replaces).  Besides the state and the body it returns the list
of (reference, fetch result) pairs in processing order — the rewrite
mapping is exactly its successful entries. -/
def process_resources (site filename_base resources_folder : Str) (net : Net) :
    List Resource → St → Str → List (Resource × Option Str) →
      St × Str × List (Resource × Option Str)
  | [], s, mb, out => (s, mb, out)
  | r :: rest, s, mb, out =>
    let step := download_resource site r.url r.filename resources_folder net s
    match step.2 with
    | some lp =>
      let new_url := filename_base ++ str "_files/" ++ lp
      let mb1 :=
        if (r.rtype == str "attachment") && (str "image/").isPrefixOf r.mime then
          imageRewrite r r.url new_url mb
        else replace4 mb r.url new_url
      process_resources site filename_base resources_folder net rest step.1 mb1
        (out ++ [(r, some lp)])
    | none =>
      process_resources site filename_base resources_folder net rest step.1 mb
        (out ++ [(r, none)])

/-- Line separator. -/
def nl : Char := Char.ofNat 10

/-- The standalone HTML document template (lines 346-356); the CSS
aggregation block is dead code in the source (`css_files = []`) and
therefore contributes nothing. -/
def html_document (title mb : Str) : Str :=
  str "<!DOCTYPE html>" ++ [nl] ++ str "<html>" ++ [nl] ++ str "<head>" ++
    [nl] ++ str "    <meta charset=" ++ [dq] ++ str "utf-8" ++ [dq] ++
    str ">" ++ [nl] ++ str "    <title>" ++ escape_html title ++
    str "</title>" ++ [nl] ++ str "    " ++ [nl] ++ str "</head>" ++ [nl] ++
    str "<body>" ++ [nl] ++ mb ++ [nl] ++ str "</body>" ++ [nl] ++
    str "</html>"

/-- A node's rich-text page as `save_html_page` consumes it. -/
structure PageContent where
  title : Str
  body : Str

/-- `save_html_page` (lines 246-367): nothing for an empty body; skip
everything (resources included) when the target HTML file already
exists; otherwise run the extract → fetch → rewrite pipeline and write
the wrapped document.  Returns the source's boolean. -/
def save_html_page (site : Str) (content : PageContent) (save_path : Str)
    (net : Net) (s : St) : St × Bool :=
  if content.body = [] then (s, false)
  else
    let filename_base := stripIllegal content.title
    let filename := filename_base ++ str ".html"
    let download_location := pjoin save_path filename
    if isfile s.disk download_location then (s, false)
    else
      let resources_folder := pjoin save_path (filename_base ++ str "_files")
      let resources := extract_resources_from_html content.body site
      let step := process_resources site filename_base resources_folder net
        resources s content.body []
      let html := html_document content.title step.2.1
      ({ step.1 with
          disk := (download_location, html) :: step.1.disk,
          writes := step.1.writes ++ [(2, download_location)] }, true)

/-! ### The tree walker. -/

/-- A content node of the remote tree, as the walker reads it: the
API identifier, display title, the library's sanitized title
(`title_safe`, an attribute of the external client and therefore an
abstract field here), the content-handler id, the `has_children`
flag, the rich-text body (empty models `None`), the attachment list
(attachment id, declared filename), and the lazily-listed children. -/
inductive Node where
  | mk (id title title_safe contentType : Str) (has_children : Bool)
      (body : Str) (attachments : List (Str × Str)) (children : List Node)

/-- API identifier. -/
def Node.id : Node → Str | .mk i _ _ _ _ _ _ _ => i

/-- Display title. -/
def Node.title : Node → Str | .mk _ t _ _ _ _ _ _ => t

/-- Sanitized title (external library attribute). -/
def Node.title_safe : Node → Str | .mk _ _ ts _ _ _ _ _ => ts

/-- Content-handler id. -/
def Node.contentType : Node → Str | .mk _ _ _ ct _ _ _ _ => ct

/-- `has_children` flag. -/
def Node.has_children : Node → Bool | .mk _ _ _ _ hc _ _ _ => hc

/-- Rich-text body. -/
def Node.body : Node → Str | .mk _ _ _ _ _ b _ _ => b

/-- Attachments (id, declared filename). -/
def Node.attachments : Node → List (Str × Str) | .mk _ _ _ _ _ _ a _ => a

/-- Child nodes. -/
def Node.children : Node → List Node | .mk _ _ _ _ _ _ _ c => c

/-- The REST download URL built for an attachment (line 416). -/
def attachmentUrl (course_id content_id att_id : Str) : Str :=
  str "/learn/api/public/v1/courses/" ++ course_id ++ str "/contents/" ++
    content_id ++ str "/attachments/" ++ att_id ++ str "/download"

/-- Step 1 of `process_content` (lines 410-420): download each API
attachment via `download_pdf`. -/
def downloadAttachments (site course_id content_id child_path : Str)
    (net : Net) : List (Str × Str) → St → St
  | [], s => s
  | att :: rest, s =>
    downloadAttachments site course_id content_id child_path net rest
      (download_pdf site (attachmentUrl course_id content_id att.1) att.2
        child_path net s).1

/-- Step 2 of `process_content` (lines 423-429): download each embedded
PDF link via `download_pdf`. -/
def downloadPdfLinks (site child_path : Str) (net : Net) :
    List PdfLink → St → St
  | [], s => s
  | l :: rest, s =>
    downloadPdfLinks site child_path net rest
      (download_pdf site l.url l.filename child_path net s).1

mutual

/-- `process_content` (lines 386-444): decide the node's output path
(a container's artifacts live in a directory named after its sanitized
title; a leaf keeps the handed path — the `parent_has_single_child`
branch of the source assigns the same path on both sides and is kept
verbatim), download attachments, then embedded PDFs and the captured
page when the body is non-empty, then recurse into the children with
this node's single-child flag. -/
def process_content (course_id : Str) (shp : Bool) (site : Str) (net : Net) :
    Node → Str → Nat → Bool → St → St
  | Node.mk id _title title_safe contentType has_children body attachments
      children, path, level, parent_has_single_child, s =>
    let child_path :=
      if has_children then pjoin path title_safe
      else if parent_has_single_child then path else path
    let s1 := downloadAttachments site course_id id child_path net attachments s
    let s2 :=
      if body ≠ [] then
        let s2a := downloadPdfLinks site child_path net
          (extract_pdf_links_from_body body) s1
        if shp && (contentType == str "resource/x-bb-document") then
          (save_html_page site ⟨_title, body⟩ child_path net s2a).1
        else s2a
      else s1
    if has_children then
      process_children course_id shp site net children child_path (level + 1)
        (children.length == 1) s2
    else s2

/-- The child loop at lines 441-442. -/
def process_children (course_id : Str) (shp : Bool) (site : Str) (net : Net) :
    List Node → Str → Nat → Bool → St → St
  | [], _, _, _, s => s
  | c :: rest, path, level, hsc, s =>
    process_children course_id shp site net rest path level hsc
      (process_content course_id shp site net c path level hsc s)

end

/-- The top-level loop at lines 450-451: each content root is walked
with the course base path, level 0 and the flag's default `False`. -/
def runContents (course_id : Str) (shp : Bool) (site : Str) (net : Net) :
    List Node → Str → St → St
  | [], _, s => s
  | c :: rest, base, s =>
    runContents course_id shp site net rest base
      (process_content course_id shp site net c base 0 false s)

/-- The per-course driver `download_course_complete` (lines 370-464),
restricted to its effectful core: walk every top-level node from the
course's base path (counters and console output carry no state the
claims mention). -/
def download_course (course_id course_name_safe : Str) (contents : List Node)
    (save_location : Str) (shp : Bool) (site : Str) (net : Net) (s : St) :
    St :=
  runContents course_id shp site net contents (pjoin save_location course_name_safe) s

/-! ## Helper lemmas -/

theorem isfile_true_iff (d : List (Str × Str)) (p : Str) :
    isfile d p = true ↔ p ∈ d.map Prod.fst := by
  simp only [isfile, List.any_eq_true, List.mem_map, beq_iff_eq]

theorem isfile_false_iff (d : List (Str × Str)) (p : Str) :
    isfile d p = false ↔ p ∉ d.map Prod.fst := by
  rw [← Bool.not_eq_true, not_iff_not]
  exact isfile_true_iff d p

theorem unquote_no_pct : ∀ s : Str, pct ∉ s → unquote s = s
  | [], _ => rfl
  | c :: a :: b :: r, h => by
    have hc : ¬(c = pct) := fun e => h (e ▸ List.mem_cons_self _ _)
    have h2 : pct ∉ a :: b :: r := fun m => h (List.mem_cons_of_mem _ m)
    simp only [unquote, if_neg hc]
    exact congrArg (c :: ·) (unquote_no_pct _ h2)
  | [c], _ => by simp [unquote]
  | [c, a], _ => by simp [unquote]

theorem stripIllegal_idem (s : Str) :
    stripIllegal (stripIllegal s) = stripIllegal s := by
  simp [stripIllegal, List.filter_filter]

theorem pct_not_mem_stripIllegal (s : Str) (h : pct ∉ s) :
    pct ∉ stripIllegal s := fun m => h (List.mem_filter.mp m).1

/-! ## Locator lemmas (for C6 and C7) -/

theorem attachmentGoList_eq_filterMap :
    ∀ (ms : List (Str × Str)) (acc : List Resource),
      attachmentGoList ms acc = acc ++ ms.filterMap parseAttachment
  | [], acc => by simp [attachmentGoList]
  | m :: ms, acc => by
    cases h : parseAttachment m with
    | none =>
      simp [attachmentGoList, h, attachmentGoList_eq_filterMap ms acc,
        List.filterMap_cons]
    | some r =>
      simp [attachmentGoList, h, attachmentGoList_eq_filterMap ms (acc ++ [r]),
        List.filterMap_cons]

/-- Occurrences of a url in an extracted resource list. -/
def countUrlR (rs : List Resource) (u : Str) : Nat :=
  (rs.filter (fun r => r.url == u)).length

/-- Occurrences of a url in an extracted PDF-link list. -/
def countUrlL (ls : List PdfLink) (u : Str) : Nat :=
  (ls.filter (fun l => l.url == u)).length

theorem countUrlR_append (a b : List Resource) (u : Str) :
    countUrlR (a ++ b) u = countUrlR a u + countUrlR b u := by
  simp [countUrlR, List.filter_append]

theorem countUrlL_append (a b : List PdfLink) (u : Str) :
    countUrlL (a ++ b) u = countUrlL a u + countUrlL b u := by
  simp [countUrlL, List.filter_append]

theorem any_of_countUrlR_pos {acc : List Resource} {u : Str}
    (h : 0 < countUrlR acc u) : acc.any (fun r => r.url == u) = true := by
  unfold countUrlR at h
  rw [List.length_pos] at h
  rcases List.exists_mem_of_ne_nil _ h with ⟨r, hr⟩
  rcases List.mem_filter.mp hr with ⟨hmem, hp⟩
  exact List.any_eq_true.mpr ⟨r, hmem, hp⟩

theorem any_of_countUrlL_pos {acc : List PdfLink} {u : Str}
    (h : 0 < countUrlL acc u) : acc.any (fun l => l.url == u) = true := by
  unfold countUrlL at h
  rw [List.length_pos] at h
  rcases List.exists_mem_of_ne_nil _ h with ⟨l, hl⟩
  rcases List.mem_filter.mp hl with ⟨hmem, hp⟩
  exact List.any_eq_true.mpr ⟨l, hmem, hp⟩

theorem imageGoList_count :
    ∀ (ms : List Str) (acc : List Resource) (u : Str), 0 < countUrlR acc u →
      countUrlR (imageGoList ms acc) u = countUrlR acc u
  | [], _, _, _ => rfl
  | raw :: ms, acc, u, h => by
    simp only [imageGoList]
    by_cases hd : (str "data:").isPrefixOf (html_unescape raw) = true
    · rw [if_pos hd]; exact imageGoList_count ms acc u h
    · rw [if_neg hd]
      by_cases ha : acc.any (fun r => r.url == html_unescape raw) = true
      · rw [if_pos ha]; exact imageGoList_count ms acc u h
      · rw [if_neg ha]
        have hne : (html_unescape raw == u) = false := by
          rcases Bool.eq_false_or_eq_true (html_unescape raw == u) with ht | hf
          · exact absurd (beq_iff_eq.mp ht ▸ any_of_countUrlR_pos h) ha
          · exact hf
        have hstep :
            countUrlR (acc ++ [⟨html_unescape raw, none, str "image", []⟩]) u
              = countUrlR acc u := by
          rw [countUrlR_append]
          simp [countUrlR, List.filter, hne]
        rw [imageGoList_count ms _ u (by rw [hstep]; exact h), hstep]

theorem documentGoList_count :
    ∀ (ms : List Str) (acc : List Resource) (u : Str), 0 < countUrlR acc u →
      countUrlR (documentGoList ms acc) u = countUrlR acc u
  | [], _, _, _ => rfl
  | raw :: ms, acc, u, h => by
    simp only [documentGoList]
    by_cases ha : acc.any (fun r => r.url == html_unescape raw) = true
    · rw [if_pos ha]; exact documentGoList_count ms acc u h
    · rw [if_neg ha]
      have hne : (html_unescape raw == u) = false := by
        rcases Bool.eq_false_or_eq_true (html_unescape raw == u) with ht | hf
        · exact absurd (beq_iff_eq.mp ht ▸ any_of_countUrlR_pos h) ha
        · exact hf
      have hstep :
          countUrlR (acc ++ [⟨html_unescape raw, none, str "document", []⟩]) u
            = countUrlR acc u := by
        rw [countUrlR_append]
        simp [countUrlR, List.filter, hne]
      rw [documentGoList_count ms _ u (by rw [hstep]; exact h), hstep]

theorem pdfHrefGoList_count :
    ∀ (ms : List Str) (acc : List PdfLink) (u : Str), 0 < countUrlL acc u →
      countUrlL (pdfHrefGoList ms acc) u = countUrlL acc u
  | [], _, _, _ => rfl
  | raw :: ms, acc, u, h => by
    simp only [pdfHrefGoList]
    by_cases hp : (str ".pdf").isSuffixOf
        (toLowerStr (beforeQuery (splitLastSlash (html_unescape raw)))) = true
    · rw [if_pos hp]
      by_cases ha : acc.any (fun l => l.url == html_unescape raw) = true
      · rw [if_pos ha]; exact pdfHrefGoList_count ms acc u h
      · rw [if_neg ha]
        have hne : (html_unescape raw == u) = false := by
          rcases Bool.eq_false_or_eq_true (html_unescape raw == u) with ht | hf
          · exact absurd (beq_iff_eq.mp ht ▸ any_of_countUrlL_pos h) ha
          · exact hf
        have hstep :
            countUrlL (acc ++
                [⟨html_unescape raw,
                  beforeQuery (splitLastSlash (html_unescape raw))⟩]) u
              = countUrlL acc u := by
          rw [countUrlL_append]
          simp [countUrlL, List.filter, hne]
        rw [pdfHrefGoList_count ms _ u (by rw [hstep]; exact h), hstep]
    · rw [if_neg hp]; exact pdfHrefGoList_count ms acc u h

/-! ## Claim C6 — the locator is total, deterministic, and degrades -/

/-- A body whose first structured blob is malformed (not JSON) and
whose second is well-formed. -/
def c6BadGoodBody : Str :=
  str "<a href=\"/u1\" data-bbfile=\"\x7bnotjson\x7d\">x</a> <a href=\"/u2\" data-bbfile=\"\x7b&quot;fileName&quot;:&quot;g.png&quot;\x7d\">y</a>"

/-- Thoroughly malformed markup. -/
def c6Garbage : Str := str "<div<<<unclosed &x; data-bbfile=\x7bnope"

/-- C6: the resource locator is a total pure function of the body (it
is defined as one — no I/O, determinism and absence of failure hold by
construction), a structured blob that fails to parse skips only that
occurrence while every other occurrence is still scanned (the
attachment rule is exactly a `filterMap` over its matches, and the
concrete body with a malformed first blob still yields the second
blob's reference), and malformed markup degrades to the empty result
for both locators rather than an error. -/
theorem C6_theorem :
    (∀ body : Str,
        attachmentPhase body = (bbAnchorMatches body).filterMap parseAttachment) ∧
    extract_resources_from_html c6BadGoodBody [] =
      [⟨str "/u2", some (str "g.png"), str "attachment", []⟩] ∧
    extract_pdf_links_from_body c6Garbage = [] ∧
    extract_resources_from_html c6Garbage [] = [] :=
  ⟨fun body => by
      rw [attachmentPhase, attachmentGoList_eq_filterMap, List.nil_append],
    by decide, by decide, by decide⟩

/-! ## Claim C7 — earlier-rule urls are never duplicated by later rules -/

/-- C7: whenever the structured-attachment rule (rule 1) captured a
url exactly once, the later rules (images and office documents for
`extract_resources_from_html`; the plain PDF-href rule for
`extract_pdf_links_from_body`) never add another reference for it: the
full output still contains exactly one reference with that url. -/
theorem C7_theorem :
    (∀ (body base u : Str), countUrlR (attachmentPhase body) u = 1 →
        countUrlR (extract_resources_from_html body base) u = 1) ∧
    (∀ (body u : Str), countUrlL (pdfBlobPhase body) u = 1 →
        countUrlL (extract_pdf_links_from_body body) u = 1) := by
  constructor
  · intro body base u h
    by_cases hb : body = []
    · subst hb
      exact absurd h (by simp [attachmentPhase, attachmentGoList,
        bbAnchorMatches, anchorScanGo, countUrlR])
    · rw [extract_resources_from_html, if_neg hb]
      have h1 : countUrlR (imagePhase body (attachmentPhase body)) u = 1 := by
        rw [imagePhase, imageGoList_count _ _ _ (by omega)]; exact h
      rw [documentPhase, documentGoList_count _ _ _ (by omega)]
      exact h1
  · intro body u h
    by_cases hb : body = []
    · subst hb
      exact absurd h (by simp [pdfBlobPhase, pdfBlobGoList, bbfileBlobMatches,
        bbfileBlobGo, countUrlL])
    · rw [extract_pdf_links_from_body, if_neg hb]
      rw [pdfHrefGoList_count _ _ _ (by omega)]
      exact h

/-- A body where the same url `/f/x.pdf` is found both by the
structured-attachment rule and by the image rule. -/
def c7ResBody : Str :=
  str "<a href=\"/f/x.pdf\" data-bbfile=\"\x7b&quot;fileName&quot;:&quot;x.pdf&quot;\x7d\">x</a><img src=\"/f/x.pdf\">"

/-- A body where the same url `/c/x.pdf` is found both by the
blob rule and by the direct PDF-href rule. -/
def c7PdfBody : Str :=
  str "<a data-bbfile=\"\x7b&quot;fileName&quot;:&quot;x.pdf&quot;\x7d\" href=\"/c/x.pdf\">x</a>"

/-- C7 witness: both dedup statements at concrete bodies in which the
url is discoverable by rule 1 and by a later rule. -/
theorem C7_witness :
    countUrlR (attachmentPhase c7ResBody) (str "/f/x.pdf") = 1 ∧
    countUrlR (extract_resources_from_html c7ResBody []) (str "/f/x.pdf") = 1 ∧
    countUrlL (pdfBlobPhase c7PdfBody) (str "/c/x.pdf") = 1 ∧
    countUrlL (extract_pdf_links_from_body c7PdfBody) (str "/c/x.pdf") = 1 :=
  ⟨by decide, C7_theorem.1 c7ResBody [] (str "/f/x.pdf") (by decide),
    by decide, C7_theorem.2 c7PdfBody (str "/c/x.pdf") (by decide)⟩

/-! ## Claim C4 — sanitizer idempotence -/

/-- C4 counterexample: the sanitizer is not idempotent.  On the input
`%252F` one application yields `%2F` (the `%25` escape decodes to `%`,
and nothing is illegal), while a second application decodes `%2F` to
`/` and strips it, yielding the empty string. -/
theorem C4_counterexample :
    sanitize_filename (sanitize_filename (str "%252F")) ≠
      sanitize_filename (str "%252F") := by decide

/-- C4 (amended): on filenames containing no percent sign — so that
percent-decoding is inert — the sanitizer is idempotent:
`sanitize(sanitize(x)) = sanitize(x)`. -/
theorem C4_theorem (s : Str) (h : pct ∉ s) :
    sanitize_filename (sanitize_filename s) = sanitize_filename s := by
  unfold sanitize_filename
  rw [unquote_no_pct s h, unquote_no_pct _ (pct_not_mem_stripIllegal s h),
    stripIllegal_idem]

/-- C4 witness: the amended idempotence at the concrete percent-free
filename `my notes?.pdf`. -/
theorem C4_witness :
    pct ∉ str "my notes?.pdf" ∧
      sanitize_filename (sanitize_filename (str "my notes?.pdf")) =
        sanitize_filename (str "my notes?.pdf") :=
  ⟨by decide, C4_theorem (str "my notes?.pdf") (by decide)⟩

/-! ## Claim C5 — sanitizer output contains no illegal character -/

/-- C5: for every string, the sanitizer's output contains none of the
characters `< > : " / \ | ? *` — the final step of `sanitize_filename`
filters exactly that class out. -/
theorem C5_theorem (s : Str) :
    (sanitize_filename s).all (fun c => !(isIllegal c)) = true := by
  simp only [sanitize_filename, stripIllegal, List.all_eq_true]
  intro c hc
  exact (List.mem_filter.mp hc).2

/-! ## Claim C9 — URL resolution in the resource fetcher -/

/-- C9: a reference whose URL begins with the path separator is
resolved by joining it to the site's base origin before any fetch —
every GET this call can issue targets `site ++ url` (either the
existence check already hit and no GET happened, or exactly that one
GET was issued); and a reference that is neither an absolute `http`
URL nor site-relative fails immediately: the call returns `None` with
the state untouched, in particular with no GET recorded. -/
theorem C9_theorem :
    (∀ (site url : Str) (f0 : Option Str) (sp : Str) (net : Net) (s : St),
        url.head? = some slash →
        ((download_resource site url f0 sp net s).1.fetched = s.fetched ∨
          (download_resource site url f0 sp net s).1.fetched =
            s.fetched ++ [(1, site ++ url)])) ∧
    (∀ (site url : Str) (f0 : Option Str) (sp : Str) (net : Net) (s : St),
        url.head? ≠ some slash → (str "http").isPrefixOf url = false →
        download_resource site url f0 sp net s = (s, none)) := by
  constructor
  · intro site url f0 sp net s h
    have hb : (url.head? == some slash) = true := by rw [h]; rfl
    rw [download_resource]
    simp only [hb, if_true]
    by_cases hf : isfile s.disk (pjoin sp (sanitize_filename
        (match f0 with
         | some f => if f ≠ [] then f else deriveFilename (site ++ url)
         | none => deriveFilename (site ++ url)))) = true
    · simp only [hf, if_true]
      exact Or.inl trivial
    · simp only [Bool.not_eq_true] at hf
      simp only [hf]
      by_cases hs : net.status (site ++ url) = 200
      · simp only [hs, if_true]; exact Or.inr rfl
      · simp only [if_neg hs]; exact Or.inr rfl
  · intro site url f0 sp net s h hp
    have hb : (url.head? == some slash) = false := by
      rcases Bool.eq_false_or_eq_true (url.head? == some slash) with ht | hf
      · exact absurd (beq_iff_eq.mp ht) h
      · exact hf
    rw [download_resource]
    simp only [hb, Bool.false_eq_true, if_false, hp]

/-- A remote oracle that always answers 200 with fixed bytes. -/
def exNet200 : Net := ⟨fun _ => 200, fun _ => str "BYTES"⟩

/-- C9 witness: a site-relative URL fetched from an empty disk records
exactly the joined GET, and a `ftp:`-style URL returns `None`
untouched. -/
theorem C9_witness :
    ((download_resource (str "http://s") (str "/a/b.png") none (str "/d")
        exNet200 ⟨[], [], []⟩).1.fetched = ([] : List (Nat × Str)) ∨
      (download_resource (str "http://s") (str "/a/b.png") none (str "/d")
        exNet200 ⟨[], [], []⟩).1.fetched =
        [] ++ [(1, str "http://s" ++ str "/a/b.png")]) ∧
    download_resource (str "http://s") (str "ftp://x/y") none (str "/d")
      exNet200 ⟨[], [], []⟩ = (⟨[], [], []⟩, none) :=
  ⟨C9_theorem.1 (str "http://s") (str "/a/b.png") none (str "/d") exNet200
      ⟨[], [], []⟩ (by decide),
    C9_theorem.2 (str "http://s") (str "ftp://x/y") none (str "/d") exNet200
      ⟨[], [], []⟩ (by decide) (by decide)⟩

/-! ## Claim C10 — the single-child flag is inert -/

/-- C10: the tree walker's behaviour does not depend on the
`parent_has_single_child` flag it receives: both branches of the
leaf-path `if` assign the same path, so the traversal — every assigned
path, download, fetch and write — is identical for any two flag
values; in particular running with the flag always `False` is the
traversal as written. -/
theorem C10_theorem (cid : Str) (shp : Bool) (site : Str) (net : Net)
    (n : Node) (path : Str) (level : Nat) (f1 f2 : Bool) (s : St) :
    process_content cid shp site net n path level f1 s =
      process_content cid shp site net n path level f2 s := by
  cases n with
  | mk id t ts ct hc b atts ch =>
    simp only [process_content, ite_self]

/-! ## State-trace framework (for C1, C2 and C3)

Every mirror operation extends the state in a disciplined way: the
disk grows by exactly the files it writes, the write and fetch traces
are appended to, every newly written path was absent from the disk at
the moment of its write (so the new write paths are pairwise distinct
and none of them pre-existed), and — for the second-run claims — an
operation whose produced files are all already on disk leaves the
disk and write trace untouched and issues no resource GET. -/

/-- Path keys of a disk. -/
def keys (d : List (Str × Str)) : List Str := d.map Prod.fst

/-- The embedded-resource GETs of a trace (kind 1, issued by
`download_resource`). -/
def resFetches (s : St) : List (Nat × Str) :=
  s.fetched.filter (fun f => f.1 == 1)

/-- The step relation satisfied by every operation of the mirror. -/
def StOk (s s' : St) : Prop :=
  ∃ dn wn fn,
    s'.disk = dn ++ s.disk ∧
    s'.writes = s.writes ++ wn ∧
    s'.fetched = s.fetched ++ fn ∧
    keys dn = (wn.map Prod.snd).reverse ∧
    (wn.map Prod.snd).Nodup ∧
    ∀ p ∈ wn.map Prod.snd, p ∉ keys s.disk

theorem StOk.keys_mono {s s' : St} (h : StOk s s') :
    keys s.disk ⊆ keys s'.disk := by
  obtain ⟨dn, wn, fn, hd, _, _, _, _, _⟩ := h
  rw [hd]
  simp only [keys, List.map_append]
  exact List.subset_append_right _ _

theorem StOk.trans {s t u : St} (h1 : StOk s t) (h2 : StOk t u) :
    StOk s u := by
  obtain ⟨d1, w1, f1, hd1, hw1, hf1, hk1, hn1, hfr1⟩ := h1
  obtain ⟨d2, w2, f2, hd2, hw2, hf2, hk2, hn2, hfr2⟩ := h2
  have hkt : keys t.disk = keys d1 ++ keys s.disk := by
    rw [hd1]; simp [keys, List.map_append]
  refine ⟨d2 ++ d1, w1 ++ w2, f1 ++ f2, ?_, ?_, ?_, ?_, ?_, ?_⟩
  · rw [hd2, hd1, List.append_assoc]
  · rw [hw2, hw1, List.append_assoc]
  · rw [hf2, hf1, List.append_assoc]
  · show keys (d2 ++ d1) = _
    have : keys (d2 ++ d1) = keys d2 ++ keys d1 := by
      simp [keys, List.map_append]
    rw [this, hk1, hk2, List.map_append, List.reverse_append]
  · rw [List.map_append, List.nodup_append]
    refine ⟨hn1, hn2, ?_⟩
    intro p hp1 hp2
    have hd1mem : p ∈ keys d1 := by
      rw [hk1]
      exact List.mem_reverse.mpr hp1
    exact hfr2 p hp2 (by rw [hkt]; exact List.mem_append.mpr (Or.inl hd1mem))
  · intro p hp
    rcases List.mem_append.mp (by rw [← List.map_append]; exact hp :
        p ∈ w1.map Prod.snd ++ w2.map Prod.snd) with h | h
    · exact hfr1 p h
    · intro hmem
      exact hfr2 p h (by rw [hkt]; exact List.mem_append.mpr (Or.inr hmem))

/-- Second-run behaviour: relative to a start state `t`, a finished
operation changed no disk entry, appended no write, and issued no
resource GET. -/
def QuietEq (t s' : St) : Prop :=
  s'.disk = t.disk ∧ s'.writes = t.writes ∧ resFetches s' = resFetches t

theorem quietEq_refl (t : St) : QuietEq t t := ⟨rfl, rfl, rfl⟩

theorem quietEq_trans {a b c : St} (h1 : QuietEq a b) (h2 : QuietEq b c) :
    QuietEq a c :=
  ⟨h2.1.trans h1.1, h2.2.1.trans h1.2.1, h2.2.2.trans h1.2.2⟩

theorem stOk_refl (s : St) : StOk s s :=
  ⟨[], [], [], by simp, by simp, by simp, by simp [keys], by simp, by simp⟩

/-- A mirror stage: it satisfies the step relation from every state,
and — run from any state whose disk already holds every key the stage
would leave behind — it is quiet (no disk change, no write, no
resource GET). -/
def Stage (F : St → St) : Prop :=
  (∀ s, StOk s (F s)) ∧
  (∀ s t, keys (F s).disk ⊆ keys t.disk → QuietEq t (F t))

theorem stage_id : Stage (fun s => s) :=
  ⟨fun s => stOk_refl s, fun _ t _ => quietEq_refl t⟩

theorem stage_congr {F G : St → St} (h : ∀ s, F s = G s) (hF : Stage F) :
    Stage G := by
  obtain ⟨h1, h2⟩ := hF
  constructor
  · intro s; rw [← h s]; exact h1 s
  · intro s t hk
    rw [← h t]
    exact h2 s t (by rw [← h s] at hk; exact hk)

theorem stage_comp {F G : St → St} (hF : Stage F) (hG : Stage G) :
    Stage (fun s => G (F s)) := by
  obtain ⟨hF1, hF2⟩ := hF
  obtain ⟨hG1, hG2⟩ := hG
  constructor
  · intro s; exact StOk.trans (hF1 s) (hG1 (F s))
  · intro s t hk
    have hkF : keys (F s).disk ⊆ keys t.disk :=
      fun p hp => hk ((hG1 (F s)).keys_mono hp)
    have qF : QuietEq t (F t) := hF2 s t hkF
    have hkG : keys (G (F s)).disk ⊆ keys (F t).disk := by
      rw [qF.1]; exact hk
    exact quietEq_trans qF (hG2 (F s) (F t) hkG)

/-! ### The atomic operations are stages. -/

theorem download_pdf_stOk (site url0 fn sp : Str) (net : Net) (s : St) :
    StOk s (download_pdf site url0 fn sp net s).1 := by
  rw [download_pdf]
  set url := (if url0.head? == some slash then site ++ url0 else url0) with hu
  set loc := pjoin sp (pdf_filename_safe fn) with hl
  by_cases hs : net.status url = 200
  · rw [if_pos hs]
    by_cases hf : isfile s.disk loc = true
    · simp only [hf, if_true]
      exact ⟨[], [], [(0, url)], by simp, by simp, by simp, by simp [keys],
        by simp, by simp⟩
    · simp only [Bool.not_eq_true] at hf
      simp only [hf, Bool.false_eq_true, if_false]
      refine ⟨[(loc, net.content url)], [(0, loc)], [(0, url)], by simp,
        by simp, by simp, by simp [keys], by simp, ?_⟩
      intro p hp
      simp only [List.map_cons, List.map_nil, List.mem_singleton] at hp
      subst hp
      exact (isfile_false_iff s.disk _).mp hf
  · rw [if_neg hs]
    exact ⟨[], [], [(0, url)], by simp, by simp, by simp, by simp [keys],
      by simp, by simp⟩

theorem download_pdf_quiet (site url0 fn sp : Str) (net : Net) (s t : St)
    (hk : keys (download_pdf site url0 fn sp net s).1.disk ⊆ keys t.disk) :
    QuietEq t (download_pdf site url0 fn sp net t).1 := by
  have hloc : net.status (if url0.head? == some slash then site ++ url0
      else url0) = 200 →
      pjoin sp (pdf_filename_safe fn) ∈
        keys (download_pdf site url0 fn sp net s).1.disk := by
    intro hs
    rw [download_pdf, if_pos hs]
    by_cases hf : isfile s.disk (pjoin sp (pdf_filename_safe fn)) = true
    · simp only [hf, if_true]
      exact (isfile_true_iff _ _).mp hf
    · simp only [Bool.not_eq_true] at hf
      simp only [hf, Bool.false_eq_true, if_false]
      exact List.mem_cons_self _ _
  rw [download_pdf]
  set url := (if url0.head? == some slash then site ++ url0 else url0) with hu
  by_cases hs : net.status url = 200
  · rw [if_pos hs]
    have hfT : isfile t.disk (pjoin sp (pdf_filename_safe fn)) = true :=
      (isfile_true_iff _ _).mpr (hk (hloc hs))
    simp only [hfT, if_true]
    exact ⟨rfl, rfl, by simp [resFetches, List.filter_append]⟩
  · rw [if_neg hs]
    exact ⟨rfl, rfl, by simp [resFetches, List.filter_append]⟩

theorem download_pdf_stage (site url0 fn sp : Str) (net : Net) :
    Stage (fun s => (download_pdf site url0 fn sp net s).1) :=
  ⟨fun s => download_pdf_stOk site url0 fn sp net s,
    fun s t hk => download_pdf_quiet site url0 fn sp net s t hk⟩

theorem download_resource_stOk (site url0 : Str) (f0 : Option Str) (sp : Str)
    (net : Net) (s : St) :
    StOk s (download_resource site url0 f0 sp net s).1 := by
  rw [download_resource]
  rcases hu : (if url0.head? == some slash then some (site ++ url0)
    else if (str "http").isPrefixOf url0 then some url0 else none) with _ | url
  · exact stOk_refl s
  · simp only []
    set loc := pjoin sp (sanitize_filename
      (match f0 with
       | some f => if f ≠ [] then f else deriveFilename url
       | none => deriveFilename url)) with hl
    by_cases hf : isfile s.disk loc = true
    · simp only [hf, if_true]
      exact stOk_refl s
    · simp only [Bool.not_eq_true] at hf
      simp only [hf, Bool.false_eq_true, if_false]
      by_cases hs : net.status url = 200
      · simp only [hs, if_true]
        refine ⟨[(loc, net.content url)], [(1, loc)], [(1, url)], by simp,
          by simp, by simp, by simp [keys], by simp, ?_⟩
        intro p hp
        simp only [List.map_cons, List.map_nil, List.mem_singleton] at hp
        subst hp
        exact (isfile_false_iff s.disk _).mp hf
      · rw [if_neg hs]
        exact ⟨[], [], [(1, url)], by simp, by simp, by simp, by simp [keys],
          by simp, by simp⟩

/-! ### Path shape lemmas. -/

theorem slash_not_mem_stripIllegal (s : Str) : slash ∉ stripIllegal s := by
  intro h
  have h2 := (List.mem_filter.mp h).2
  have : isIllegal slash = true := by decide
  rw [this] at h2
  exact absurd h2 (by decide)

theorem slash_not_mem_sanitize (f : Str) : slash ∉ sanitize_filename f :=
  slash_not_mem_stripIllegal (unquote f)

theorem head_not_slash {b : Str} (hb : slash ∉ b) :
    (b.head? == some slash) = false := by
  cases b with
  | nil => rfl
  | cons c t =>
    have hc : ¬(c = slash) := fun e => hb (e ▸ List.mem_cons_self _ _)
    simp [hc]

theorem pjoin_eq (a : Str) {b : Str} (hb : slash ∉ b) :
    pjoin a b = a ++ [slash] ++ b := by
  rw [pjoin, head_not_slash hb]
  simp

theorem dropWhile_append_all {p : Char → Bool} :
    ∀ (l m : Str), (∀ x ∈ l, p x = true) →
      List.dropWhile p (l ++ m) = List.dropWhile p m
  | [], _, _ => rfl
  | c :: l, m, h => by
    simp only [List.cons_append, List.dropWhile_cons,
      h c (List.mem_cons_self _ _), if_true]
    exact dropWhile_append_all l m (fun x hx => h x (List.mem_cons_of_mem _ hx))

theorem dirname_append_slash (a b : Str) (hb : slash ∉ b) :
    dirname (a ++ [slash] ++ b) = a := by
  rw [dirname]
  have h1 : (a ++ [slash] ++ b).reverse = b.reverse ++ ([slash] ++ a.reverse) := by
    simp
  rw [h1]
  have h2 : List.dropWhile (fun c => c ≠ slash) (b.reverse ++ ([slash] ++ a.reverse))
      = List.dropWhile (fun c => c ≠ slash) ([slash] ++ a.reverse) := by
    apply dropWhile_append_all
    intro x hx
    have hxs : x ≠ slash := fun e => hb (e ▸ List.mem_reverse.mp hx)
    simp [hxs]
  rw [h2]
  have h3 : List.dropWhile (fun c => c ≠ slash) ([slash] ++ a.reverse)
      = slash :: a.reverse := by
    simp [List.dropWhile_cons]
  rw [h3]
  simp

theorem dirname_pjoin (a : Str) {b : Str} (hb : slash ∉ b) :
    dirname (pjoin a b) = a := by
  rw [pjoin_eq a hb, dirname_append_slash a b hb]

theorem html_loc_ne_res_loc (sp base fs : Str) (hb : slash ∉ base)
    (hf : slash ∉ fs) :
    pjoin sp (base ++ str ".html") ≠ pjoin (pjoin sp (base ++ str "_files")) fs := by
  have h1 : slash ∉ base ++ str ".html" := by
    intro h
    rcases List.mem_append.mp h with h | h
    · exact hb h
    · revert h; decide
  have h2 : slash ∉ base ++ str "_files" := by
    intro h
    rcases List.mem_append.mp h with h | h
    · exact hb h
    · revert h; decide
  rw [pjoin_eq sp h1, pjoin_eq _ hf, pjoin_eq sp h2]
  intro heq
  have heqA : (sp ++ [slash]) ++ (base ++ str ".html") =
      (sp ++ [slash]) ++ (base ++ (str "_files" ++ ([slash] ++ fs))) := by
    simpa [List.append_assoc] using heq
  have heq3 : str ".html" = str "_files" ++ ([slash] ++ fs) :=
    List.append_cancel_left (List.append_cancel_left heqA)
  have h5 : str ".html" = Char.ofNat 46 :: str "html" := rfl
  have h6 : str "_files" ++ ([slash] ++ fs)
      = Char.ofNat 95 :: (str "files" ++ ([slash] ++ fs)) := rfl
  rw [h5, h6] at heq3
  exact absurd (List.cons.inj heq3).1 (by decide)

/-! ### The resource loop and the page capture are stages. -/

theorem process_resources_stOk (site base folder : Str) (net : Net) :
    ∀ (rs : List Resource) (s : St) (mb : Str)
      (out : List (Resource × Option Str)),
      StOk s (process_resources site base folder net rs s mb out).1
  | [], s, _, _ => stOk_refl s
  | r :: rest, s, mb, out => by
    rw [process_resources]
    have h1 : StOk s (download_resource site r.url r.filename folder net s).1 :=
      download_resource_stOk site r.url r.filename folder net s
    rcases hstep : download_resource site r.url r.filename folder net s with
      ⟨s1, lp?⟩
    rw [hstep] at h1
    cases lp? with
    | some lp =>
      simp only []
      exact StOk.trans h1 (process_resources_stOk site base folder net rest s1 _ _)
    | none =>
      simp only []
      exact StOk.trans h1 (process_resources_stOk site base folder net rest s1 _ _)

theorem process_resources_writes (site base folder : Str) (net : Net) :
    ∀ (rs : List Resource) (s : St) (mb : Str)
      (out : List (Resource × Option Str)),
      ∃ wn, (process_resources site base folder net rs s mb out).1.writes
          = s.writes ++ wn ∧
        ∀ w ∈ wn, w.1 = 1 ∧ ∃ fs, slash ∉ fs ∧ w.2 = pjoin folder fs
  | [], s, _, _ => ⟨[], by simp [process_resources], by simp⟩
  | r :: rest, s, mb, out => by
    rw [process_resources]
    have hone : ∃ w1, (download_resource site r.url r.filename folder net s).1.writes
        = s.writes ++ w1 ∧
        ∀ w ∈ w1, w.1 = 1 ∧ ∃ fs, slash ∉ fs ∧ w.2 = pjoin folder fs := by
      rw [download_resource]
      rcases (if r.url.head? == some slash then some (site ++ r.url)
        else if (str "http").isPrefixOf r.url then some r.url else none) with
        _ | url
      · exact ⟨[], by simp, by simp⟩
      · simp only []
        set fsn := sanitize_filename
          (match r.filename with
           | some f => if f ≠ [] then f else deriveFilename url
           | none => deriveFilename url) with hfsn
        by_cases hf : isfile s.disk (pjoin folder fsn) = true
        · simp only [hf, if_true]
          exact ⟨[], by simp, by simp⟩
        · simp only [Bool.not_eq_true] at hf
          simp only [hf, Bool.false_eq_true, if_false]
          by_cases hs : net.status url = 200
          · simp only [hs, if_true]
            refine ⟨[(1, pjoin folder fsn)], by simp, ?_⟩
            intro w hw
            simp only [List.mem_singleton] at hw
            subst hw
            exact ⟨rfl, fsn, by rw [hfsn]; exact slash_not_mem_sanitize _, rfl⟩
          · rw [if_neg hs]
            exact ⟨[], by simp, by simp⟩
    rcases hstep : download_resource site r.url r.filename folder net s with
      ⟨s1, lp?⟩
    rw [hstep] at hone
    obtain ⟨w1, hw1, hsh1⟩ := hone
    cases lp? with
    | some lp =>
      simp only []
      obtain ⟨wn, hwn, hshn⟩ :=
        process_resources_writes site base folder net rest s1
          (if (r.rtype == str "attachment") && (str "image/").isPrefixOf r.mime
           then imageRewrite r r.url (base ++ str "_files/" ++ lp) mb
           else replace4 mb r.url (base ++ str "_files/" ++ lp))
          (out ++ [(r, some lp)])
      refine ⟨w1 ++ wn, ?_, ?_⟩
      · rw [hwn, hw1, List.append_assoc]
      · intro w hw
        rcases List.mem_append.mp hw with h | h
        · exact hsh1 w h
        · exact hshn w h
    | none =>
      simp only []
      obtain ⟨wn, hwn, hshn⟩ :=
        process_resources_writes site base folder net rest s1 mb
          (out ++ [(r, none)])
      refine ⟨w1 ++ wn, ?_, ?_⟩
      · rw [hwn, hw1, List.append_assoc]
      · intro w hw
        rcases List.mem_append.mp hw with h | h
        · exact hsh1 w h
        · exact hshn w h

theorem save_html_page_stOk (site : Str) (content : PageContent) (sp : Str)
    (net : Net) (s : St) :
    StOk s (save_html_page site content sp net s).1 := by
  rw [save_html_page]
  by_cases hb : content.body = []
  · rw [if_pos hb]; exact stOk_refl s
  · rw [if_neg hb]
    set base := stripIllegal content.title with hbase
    set loc := pjoin sp (base ++ str ".html") with hlocdef
    by_cases hf : isfile s.disk loc = true
    · simp only [hf, if_true]; exact stOk_refl s
    · simp only [Bool.not_eq_true] at hf
      simp only [hf, Bool.false_eq_true, if_false]
      set folder := pjoin sp (base ++ str "_files") with hfolder
      set rs := extract_resources_from_html content.body site with hrs
      have hPR : StOk s (process_resources site base folder net rs s
          content.body []).1 :=
        process_resources_stOk site base folder net rs s content.body []
      obtain ⟨wn', hwn', hshn'⟩ :=
        process_resources_writes site base folder net rs s content.body []
      obtain ⟨dn, wn, fn, hd, hw, hfe, hk, hn, hfr⟩ :=
        process_resources_stOk site base folder net rs s content.body []
      have hwq : wn = wn' := List.append_cancel_left (hw ▸ hwn')
      have hfresh : loc ∉ keys (process_resources site base folder net rs s
          content.body []).1.disk := by
        rw [hd]
        intro hmem
        rcases List.mem_append.mp (by simpa [keys, List.map_append] using hmem :
            loc ∈ keys dn ++ keys s.disk) with h | h
        · rw [hk] at h
          have hlw : loc ∈ wn.map Prod.snd := List.mem_reverse.mp h
          rcases List.mem_map.mp hlw with ⟨w, hwmem, hweq⟩
          obtain ⟨_, fs, hfs, hweq2⟩ := hshn' w (hwq ▸ hwmem)
          exact html_loc_ne_res_loc sp base fs
            (hbase ▸ slash_not_mem_stripIllegal content.title) hfs
            (hweq.symm.trans hweq2)
        · exact (isfile_false_iff s.disk loc).mp hf h
      refine StOk.trans hPR ⟨[(loc, html_document content.title
        (process_resources site base folder net rs s content.body []).2.1)],
        [(2, loc)], [], by simp, by simp, by simp, by simp [keys], by simp, ?_⟩
      intro p hp
      simp only [List.map_cons, List.map_nil, List.mem_singleton] at hp
      subst hp
      exact hfresh

theorem save_html_page_quiet (site : Str) (content : PageContent) (sp : Str)
    (net : Net) (s t : St)
    (hk : keys (save_html_page site content sp net s).1.disk ⊆ keys t.disk) :
    QuietEq t (save_html_page site content sp net t).1 := by
  rw [save_html_page]
  by_cases hb : content.body = []
  · rw [if_pos hb]; exact quietEq_refl t
  · rw [if_neg hb]
    have hloc : pjoin sp (stripIllegal content.title ++ str ".html") ∈
        keys (save_html_page site content sp net s).1.disk := by
      rw [save_html_page, if_neg hb]
      by_cases hf : isfile s.disk
          (pjoin sp (stripIllegal content.title ++ str ".html")) = true
      · simp only [hf, if_true]
        exact (isfile_true_iff _ _).mp hf
      · simp only [Bool.not_eq_true] at hf
        simp only [hf, Bool.false_eq_true, if_false]
        simp [keys]
    have hfT : isfile t.disk
        (pjoin sp (stripIllegal content.title ++ str ".html")) = true :=
      (isfile_true_iff _ _).mpr (hk hloc)
    simp only [hfT, if_true]
    exact quietEq_refl t

theorem save_html_page_stage (site : Str) (content : PageContent) (sp : Str)
    (net : Net) : Stage (fun s => (save_html_page site content sp net s).1) :=
  ⟨fun s => save_html_page_stOk site content sp net s,
    fun s t hk => save_html_page_quiet site content sp net s t hk⟩

/-! ### The tree walker is a stage. -/

theorem stage_ite (c : Prop) [Decidable c] {F G : St → St} (hF : Stage F)
    (hG : Stage G) : Stage (fun s => if c then F s else G s) := by
  by_cases h : c
  · exact stage_congr (fun s => by rw [if_pos h]) hF
  · exact stage_congr (fun s => by rw [if_neg h]) hG

theorem downloadAttachments_stage (site cid nid cp : Str) (net : Net) :
    ∀ atts : List (Str × Str),
      Stage (fun s => downloadAttachments site cid nid cp net atts s)
  | [] => stage_congr (fun s => by rw [downloadAttachments]) stage_id
  | att :: rest =>
    stage_congr (fun s => by rw [downloadAttachments])
      (stage_comp (download_pdf_stage site (attachmentUrl cid nid att.1) att.2
          cp net)
        (downloadAttachments_stage site cid nid cp net rest))

theorem downloadPdfLinks_stage (site cp : Str) (net : Net) :
    ∀ links : List PdfLink,
      Stage (fun s => downloadPdfLinks site cp net links s)
  | [] => stage_congr (fun s => by rw [downloadPdfLinks]) stage_id
  | l :: rest =>
    stage_congr (fun s => by rw [downloadPdfLinks])
      (stage_comp (download_pdf_stage site l.url l.filename cp net)
        (downloadPdfLinks_stage site cp net rest))

mutual

theorem process_content_stage (cid : Str) (shp : Bool) (site : Str) (net : Net) :
    ∀ (n : Node) (path : Str) (level : Nat) (phsc : Bool),
      Stage (fun s => process_content cid shp site net n path level phsc s)
  | Node.mk id t ts ct hc b atts ch, path, level, phsc => by
    refine stage_congr (fun s => ?_)
      (stage_comp (downloadAttachments_stage site cid id
          (if hc = true then pjoin path ts
           else if phsc = true then path else path) net atts)
        (stage_comp
          (stage_ite (b ≠ [])
            (stage_ite ((shp && (ct == str "resource/x-bb-document")) = true)
              (stage_comp (downloadPdfLinks_stage site
                  (if hc = true then pjoin path ts
                   else if phsc = true then path else path) net
                  (extract_pdf_links_from_body b))
                (save_html_page_stage site ⟨t, b⟩
                  (if hc = true then pjoin path ts
                   else if phsc = true then path else path) net))
              (downloadPdfLinks_stage site
                (if hc = true then pjoin path ts
                 else if phsc = true then path else path) net
                (extract_pdf_links_from_body b)))
            stage_id)
          (stage_ite (hc = true)
            (process_children_stage cid shp site net ch
              (if hc = true then pjoin path ts
               else if phsc = true then path else path) (level + 1)
              (ch.length == 1))
            stage_id)))
    rw [process_content]

theorem process_children_stage (cid : Str) (shp : Bool) (site : Str)
    (net : Net) :
    ∀ (ch : List Node) (path : Str) (level : Nat) (hsc : Bool),
      Stage (fun s => process_children cid shp site net ch path level hsc s)
  | [], _, _, _ => stage_congr (fun s => by rw [process_children]) stage_id
  | c :: rest, path, level, hsc =>
    stage_congr (fun s => by rw [process_children])
      (stage_comp (process_content_stage cid shp site net c path level hsc)
        (process_children_stage cid shp site net rest path level hsc))

end

theorem runContents_stage (cid : Str) (shp : Bool) (site : Str) (net : Net) :
    ∀ (cs : List Node) (base : Str),
      Stage (fun s => runContents cid shp site net cs base s)
  | [], _ => stage_congr (fun s => by rw [runContents]) stage_id
  | c :: rest, base =>
    stage_congr (fun s => by rw [runContents])
      (stage_comp (process_content_stage cid shp site net c base 0 false)
        (runContents_stage cid shp site net rest base))

theorem download_course_stage (cid cname : Str) (contents : List Node)
    (save : Str) (shp : Bool) (site : Str) (net : Net) :
    Stage (fun s => download_course cid cname contents save shp site net s) :=
  stage_congr (fun s => by rw [download_course])
    (runContents_stage cid shp site net contents (pjoin save cname))

/-! ## Claim C3 — at most one write per path, never overwriting -/

/-- C3: over a whole course run from any starting disk, each local
file path is written at most once (the run's write-trace paths are
pairwise distinct, every write having been preceded by the existence
check on that path), and no path that already existed before the run
is ever written — pre-existing files are never overwritten.  This
covers attachment/PDF downloads, embedded-resource downloads and the
captured HTML pages, the only writers of the run. -/
theorem C3_theorem (cid cname : Str) (contents : List Node) (save : Str)
    (shp : Bool) (site : Str) (net : Net) (d0 : List (Str × Str)) :
    ((download_course cid cname contents save shp site net
        ⟨d0, [], []⟩).writes.map Prod.snd).Nodup ∧
    (download_course cid cname contents save shp site net
        ⟨d0, [], []⟩).writes.all (fun w => !(isfile d0 w.2)) = true := by
  obtain ⟨dn, wn, fn, hd, hw, hfe, hk, hn, hfr⟩ :=
    (download_course_stage cid cname contents save shp site net).1 ⟨d0, [], []⟩
  have hw2 : (download_course cid cname contents save shp site net
      ⟨d0, [], []⟩).writes = wn := by
    rw [hw]; rfl
  rw [hw2]
  refine ⟨hn, ?_⟩
  rw [List.all_eq_true]
  intro w hwmem
  have hp : w.2 ∉ keys d0 := hfr w.2 (List.mem_map_of_mem _ hwmem)
  rw [(isfile_false_iff d0 w.2).mpr hp]
  rfl

/-! ## Claim C1 — idempotence of a second run -/

/-- A directly mirrorable leaf with one API attachment. -/
def c1Node : Node :=
  Node.mk (str "c1") (str "Leaf") (str "Leaf") (str "x") false []
    [(str "a1", str "f.pdf")] []

/-- First run over the one-node course from an empty disk. -/
def c1FirstRun : St :=
  download_course (str "crs") (str "Course") [c1Node] (str "/root") false
    (str "http://s") exNet200 ⟨[], [], []⟩

/-- Second run over the unchanged tree and the unchanged output
directory. -/
def c1SecondRun : St :=
  download_course (str "crs") (str "Course") [c1Node] (str "/root") false
    (str "http://s") exNet200 ⟨c1FirstRun.disk, [], []⟩

/-- C1 counterexample: a second run over an unchanged one-node tree
does NOT perform zero network fetches — the attachment's target file
exists on disk from the first run, yet the second run still issues the
attachment GET, because `download_pdf` fetches before its existence
check.  (The claim asserts zero fetches and, in particular, no GET for
an attachment whose file already exists.) -/
theorem C1_counterexample :
    isfile c1FirstRun.disk (str "/root/Course/f.pdf") = true ∧
    c1SecondRun.fetched =
      [(0, str "http://s/learn/api/public/v1/courses/crs/contents/c1/attachments/a1/download")] := by
  constructor
  · decide
  · decide

/-- C1 (amended): re-running the mirror over an unchanged tree with an
unchanged output directory leaves every output file byte-identical
(the disk is exactly the first run's disk), performs zero writes, and
performs zero embedded-resource GETs; attachment/embedded-PDF GETs are
still issued on the second run (one per `download_pdf` call, as the
counterexample shows), because that downloader checks existence only
after fetching. -/
theorem C1_theorem (cid cname : Str) (contents : List Node) (save : Str)
    (shp : Bool) (site : Str) (net : Net) (d0 : List (Str × Str)) :
    (download_course cid cname contents save shp site net
        ⟨(download_course cid cname contents save shp site net
            ⟨d0, [], []⟩).disk, [], []⟩).disk =
      (download_course cid cname contents save shp site net
        ⟨d0, [], []⟩).disk ∧
    (download_course cid cname contents save shp site net
        ⟨(download_course cid cname contents save shp site net
            ⟨d0, [], []⟩).disk, [], []⟩).writes = [] ∧
    resFetches (download_course cid cname contents save shp site net
        ⟨(download_course cid cname contents save shp site net
            ⟨d0, [], []⟩).disk, [], []⟩) = [] := by
  have hq := (download_course_stage cid cname contents save shp site net).2
    ⟨d0, [], []⟩
    ⟨(download_course cid cname contents save shp site net ⟨d0, [], []⟩).disk,
      [], []⟩
    (fun p hp => hp)
  exact ⟨hq.1, hq.2.1, hq.2.2⟩

/-! ## Claim C2 — single-child flattening: write locations -/

/-- The declared PDF filenames a node can download: its attachments'
names and the filenames of the PDF links extracted from its body. -/
def pdfNames (n : Node) : List Str :=
  n.attachments.map Prod.snd ++
    (extract_pdf_links_from_body n.body).map PdfLink.filename

theorem download_pdf_writes (site url0 fn sp : Str) (net : Net) (s : St) :
    ∃ wn, (download_pdf site url0 fn sp net s).1.writes = s.writes ++ wn ∧
      ∀ w ∈ wn, w = (0, pjoin sp (pdf_filename_safe fn)) := by
  rw [download_pdf]
  set url := (if url0.head? == some slash then site ++ url0 else url0) with hu
  by_cases hs : net.status url = 200
  · rw [if_pos hs]
    by_cases hf : isfile s.disk (pjoin sp (pdf_filename_safe fn)) = true
    · simp only [hf, if_true]
      exact ⟨[], by simp, by simp⟩
    · simp only [Bool.not_eq_true] at hf
      simp only [hf, Bool.false_eq_true, if_false]
      refine ⟨[(0, pjoin sp (pdf_filename_safe fn))], by simp, ?_⟩
      intro w hw
      simpa using hw
  · rw [if_neg hs]
    exact ⟨[], by simp, by simp⟩

theorem downloadAttachments_writes (site cid nid cp : Str) (net : Net) :
    ∀ (atts : List (Str × Str)) (s : St),
      ∃ wn, (downloadAttachments site cid nid cp net atts s).writes
          = s.writes ++ wn ∧
        ∀ w ∈ wn, w.1 = 0 ∧
          ∃ fn ∈ atts.map Prod.snd, w.2 = pjoin cp (pdf_filename_safe fn)
  | [], s => ⟨[], by rw [downloadAttachments]; simp, by simp⟩
  | att :: rest, s => by
    rw [downloadAttachments]
    obtain ⟨w1, hw1, hsh1⟩ := download_pdf_writes site
      (attachmentUrl cid nid att.1) att.2 cp net s
    obtain ⟨wn, hwn, hshn⟩ := downloadAttachments_writes site cid nid cp net
      rest (download_pdf site (attachmentUrl cid nid att.1) att.2 cp net s).1
    refine ⟨w1 ++ wn, by rw [hwn, hw1, List.append_assoc], ?_⟩
    intro w hw
    rcases List.mem_append.mp hw with h | h
    · rw [hsh1 w h]
      exact ⟨rfl, att.2, by simp, rfl⟩
    · obtain ⟨h0, fn, hfn, hfn2⟩ := hshn w h
      exact ⟨h0, fn, by simp only [List.map_cons]; exact List.mem_cons_of_mem _ hfn, hfn2⟩

theorem downloadPdfLinks_writes (site cp : Str) (net : Net) :
    ∀ (links : List PdfLink) (s : St),
      ∃ wn, (downloadPdfLinks site cp net links s).writes = s.writes ++ wn ∧
        ∀ w ∈ wn, w.1 = 0 ∧
          ∃ fn ∈ links.map PdfLink.filename, w.2 = pjoin cp (pdf_filename_safe fn)
  | [], s => ⟨[], by rw [downloadPdfLinks]; simp, by simp⟩
  | l :: rest, s => by
    rw [downloadPdfLinks]
    obtain ⟨w1, hw1, hsh1⟩ := download_pdf_writes site l.url l.filename cp net s
    obtain ⟨wn, hwn, hshn⟩ := downloadPdfLinks_writes site cp net rest
      (download_pdf site l.url l.filename cp net s).1
    refine ⟨w1 ++ wn, by rw [hwn, hw1, List.append_assoc], ?_⟩
    intro w hw
    rcases List.mem_append.mp hw with h | h
    · rw [hsh1 w h]
      exact ⟨rfl, l.filename, by simp, rfl⟩
    · obtain ⟨h0, fn, hfn, hfn2⟩ := hshn w h
      exact ⟨h0, fn, by simp only [List.map_cons]; exact List.mem_cons_of_mem _ hfn, hfn2⟩

theorem save_html_page_writes (site : Str) (content : PageContent) (sp : Str)
    (net : Net) (s : St) :
    ∃ wn, (save_html_page site content sp net s).1.writes = s.writes ++ wn ∧
      ∀ w ∈ wn, w.1 = 1 ∨
        (w.1 = 2 ∧ w.2 = pjoin sp (stripIllegal content.title ++ str ".html")) := by
  rw [save_html_page]
  by_cases hb : content.body = []
  · rw [if_pos hb]
    exact ⟨[], by simp, by simp⟩
  · rw [if_neg hb]
    by_cases hf : isfile s.disk
        (pjoin sp (stripIllegal content.title ++ str ".html")) = true
    · simp only [hf, if_true]
      exact ⟨[], by simp, by simp⟩
    · simp only [Bool.not_eq_true] at hf
      simp only [hf, Bool.false_eq_true, if_false]
      obtain ⟨wn, hwn, hshn⟩ := process_resources_writes site
        (stripIllegal content.title)
        (pjoin sp (stripIllegal content.title ++ str "_files")) net
        (extract_resources_from_html content.body site) s content.body []
      refine ⟨wn ++ [(2, pjoin sp (stripIllegal content.title ++ str ".html"))],
        ?_, ?_⟩
      · show (process_resources site (stripIllegal content.title)
            (pjoin sp (stripIllegal content.title ++ str "_files")) net
            (extract_resources_from_html content.body site) s content.body
            []).1.writes ++
            [(2, pjoin sp (stripIllegal content.title ++ str ".html"))] = _
        rw [hwn, List.append_assoc]
      · intro w hw
        rcases List.mem_append.mp hw with h | h
        · exact Or.inl (hshn w h).1
        · simp only [List.mem_singleton] at h
          subst h
          exact Or.inr ⟨rfl, rfl⟩

theorem html_base_no_slash (t : Str) : slash ∉ stripIllegal t ++ str ".html" := by
  intro hmem
  rcases List.mem_append.mp hmem with h | h
  · exact slash_not_mem_stripIllegal t h
  · revert h; decide

/-- Every write produced by a node's own three artifact steps
(attachments, embedded PDFs, page capture) either pre-existed in the
trace, is an embedded-resource write (kind 1, living in the page's
`_files` sibling folder), or lands directly in the node's output
directory `cp` — provided the declared PDF filenames stay free of path
separators after the `download_pdf` cleanup. -/
theorem body_stages_writes (cid : Str) (shp : Bool) (site : Str) (net : Net)
    (id t ct : Str) (b : Str) (atts : List (Str × Str)) (cp : Str) (s : St)
    (hnames : ∀ fn ∈ atts.map Prod.snd ++
        (extract_pdf_links_from_body b).map PdfLink.filename,
        slash ∉ pdf_filename_safe fn) :
    ∀ w ∈ (if b ≠ [] then
        (if (shp && (ct == str "resource/x-bb-document")) = true then
          (save_html_page site ⟨t, b⟩ cp net (downloadPdfLinks site cp net
            (extract_pdf_links_from_body b)
            (downloadAttachments site cid id cp net atts s))).1
        else downloadPdfLinks site cp net (extract_pdf_links_from_body b)
          (downloadAttachments site cid id cp net atts s))
      else downloadAttachments site cid id cp net atts s).writes,
      w ∈ s.writes ∨ w.1 = 1 ∨ dirname w.2 = cp := by
  obtain ⟨w1, hw1, hsh1⟩ := downloadAttachments_writes site cid id cp net atts s
  have hW1 : ∀ w ∈ w1, w ∈ s.writes ∨ w.1 = 1 ∨ dirname w.2 = cp := by
    intro w hw
    obtain ⟨_, fn, hfn, heq⟩ := hsh1 w hw
    refine Or.inr (Or.inr ?_)
    rw [heq]
    exact dirname_pjoin cp (hnames fn (List.mem_append.mpr (Or.inl hfn)))
  by_cases hbb : b = []
  · rw [if_neg (fun h => h hbb)]
    intro w hw
    rw [hw1] at hw
    rcases List.mem_append.mp hw with h | h
    · exact Or.inl h
    · exact hW1 w h
  · rw [if_pos hbb]
    obtain ⟨w2, hw2, hsh2⟩ := downloadPdfLinks_writes site cp net
      (extract_pdf_links_from_body b)
      (downloadAttachments site cid id cp net atts s)
    have hW2 : ∀ w ∈ w2, w ∈ s.writes ∨ w.1 = 1 ∨ dirname w.2 = cp := by
      intro w hw
      obtain ⟨_, fn, hfn, heq⟩ := hsh2 w hw
      refine Or.inr (Or.inr ?_)
      rw [heq]
      exact dirname_pjoin cp (hnames fn (List.mem_append.mpr (Or.inr hfn)))
    by_cases hcond : (shp && (ct == str "resource/x-bb-document")) = true
    · rw [if_pos hcond]
      obtain ⟨w3, hw3, hsh3⟩ := save_html_page_writes site ⟨t, b⟩ cp net
        (downloadPdfLinks site cp net (extract_pdf_links_from_body b)
          (downloadAttachments site cid id cp net atts s))
      intro w hw
      rw [hw3, hw2, hw1] at hw
      rcases List.mem_append.mp hw with h12 | h3
      · rcases List.mem_append.mp h12 with h01 | h2
        · rcases List.mem_append.mp h01 with h0 | h1
          · exact Or.inl h0
          · exact hW1 w h1
        · exact hW2 w h2
      · rcases hsh3 w h3 with h | ⟨_, heq⟩
        · exact Or.inr (Or.inl h)
        · refine Or.inr (Or.inr ?_)
          rw [heq]
          exact dirname_pjoin cp (html_base_no_slash t)
    · rw [if_neg hcond]
      intro w hw
      rw [hw2, hw1] at hw
      rcases List.mem_append.mp hw with h01 | h2
      · rcases List.mem_append.mp h01 with h0 | h1
        · exact Or.inl h0
        · exact hW1 w h1
      · exact hW2 w h2

/-- Specialization of `body_stages_writes` to a whole leaf node: a
leaf is processed at exactly the path it was handed (no directory of
its own), so all its non-resource writes land directly there. -/
theorem process_content_leaf_writes (cid : Str) (shp : Bool) (site : Str)
    (net : Net) (id t ts ct b : Str) (atts : List (Str × Str))
    (ch : List Node) (path : Str) (level : Nat) (phsc : Bool) (s : St)
    (hnames : ∀ fn ∈ pdfNames (Node.mk id t ts ct false b atts ch),
        slash ∉ pdf_filename_safe fn) :
    ∀ w ∈ (process_content cid shp site net (Node.mk id t ts ct false b atts ch)
        path level phsc s).writes,
      w ∈ s.writes ∨ w.1 = 1 ∨ dirname w.2 = path := by
  rw [process_content]
  simp only [Bool.false_eq_true, if_false, ite_self]
  exact body_stages_writes cid shp site net id t ct b atts path s hnames

/-- A leaf whose attachment filename hides a path separator behind a
percent escape: `download_pdf` strips first and percent-decodes after,
so the decoded `/` survives into the target path. -/
def c2Leaf : Node :=
  Node.mk (str "c2") (str "L") (str "L") (str "x") false []
    [(str "a2", str "a%2Fb.pdf")] []

/-- A container with exactly one child, the leaf above. -/
def c2Parent : Node :=
  Node.mk (str "p") (str "P") (str "P") (str "folder") true [] [] [c2Leaf]

/-- The walk of the single-child parent. -/
def c2Run : St :=
  process_content (str "crs") false (str "http://s") exNet200 c2Parent
    (str "/base") 0 false ⟨[], [], []⟩

/-- C2 counterexample: a node with exactly one child, that child a
leaf, whose single downloaded file is written one level BELOW the
parent's directory: the attachment name `a%2Fb.pdf` becomes `a/b.pdf`
after the cleanup, so the file lands at `/base/P/a/b.pdf`, whose
directory is `/base/P/a`, not the parent's directory `/base/P`. -/
theorem C2_counterexample :
    c2Parent.has_children = true ∧ c2Parent.children = [c2Leaf] ∧
    c2Leaf.has_children = false ∧
    c2Run.writes = [(0, str "/base/P/a/b.pdf")] ∧
    ¬ dirname (str "/base/P/a/b.pdf") = pjoin (str "/base") c2Parent.title_safe :=
  ⟨rfl, rfl, rfl, by decide, by decide⟩

/-- C2 (amended): for every node with exactly one child, that child a
leaf, and whose declared PDF filenames contain no path separator after
the `download_pdf` cleanup, every attachment/PDF/HTML write of the
walk (everything except the kind-1 embedded-resource files, which live
in the page's `_files` sibling folder) lands directly in the parent's
directory `path/title_safe` — the leaf never gets a directory level of
its own. -/
theorem C2_theorem (cid : Str) (shp : Bool) (site : Str) (net : Net)
    (P L : Node) (path : Str) (level : Nat) (phsc : Bool)
    (d0 : List (Str × Str))
    (hhc : P.has_children = true) (hch : P.children = [L])
    (hleaf : L.has_children = false)
    (hnames : ∀ fn ∈ pdfNames P ++ pdfNames L, slash ∉ pdf_filename_safe fn) :
    ∀ w ∈ (process_content cid shp site net P path level phsc
        ⟨d0, [], []⟩).writes,
      w.1 ≠ 1 → dirname w.2 = pjoin path P.title_safe := by
  cases P with
  | mk id t ts ct hcP b atts ch =>
  cases L with
  | mk idL tL tsL ctL hcL bL attsL chL =>
  have hhc2 : hcP = true := hhc
  have hch2 : ch = [Node.mk idL tL tsL ctL hcL bL attsL chL] := hch
  have hleaf2 : hcL = false := hleaf
  subst hhc2
  subst hch2
  subst hleaf2
  rw [process_content]
  simp only [eq_self_iff_true, if_true]
  rw [process_children, process_children]
  intro w hw hne
  rcases process_content_leaf_writes cid shp site net idL tL tsL ctL bL attsL
      chL (pjoin path ts) _ _ _
      (fun fn hfn => hnames fn (List.mem_append.mpr (Or.inr hfn))) w hw with
    h2 | h1 | hdir
  · rcases body_stages_writes cid shp site net id t ct b atts (pjoin path ts)
        ⟨d0, [], []⟩
        (fun fn hfn => hnames fn (List.mem_append.mpr (Or.inl hfn))) w h2 with
      h0 | h1 | hdir
    · exact absurd h0 (List.not_mem_nil w)
    · exact absurd h1 hne
    · exact hdir
  · exact absurd h1 hne
  · exact hdir

/-- A single-child parent with a well-behaved leaf filename. -/
def c2GoodLeaf : Node :=
  Node.mk (str "c3") (str "L2") (str "L2") (str "x") false []
    [(str "a3", str "notes.pdf")] []

/-- Its parent. -/
def c2GoodParent : Node :=
  Node.mk (str "p2") (str "P2") (str "P2") (str "folder") true [] []
    [c2GoodLeaf]

/-- C2 witness: the amended claim applied to a concrete single-child
parent whose leaf downloads one PDF with a separator-free name. -/
theorem C2_witness :
    c2GoodParent.has_children = true ∧ c2GoodParent.children = [c2GoodLeaf] ∧
    c2GoodLeaf.has_children = false ∧
    (∀ fn ∈ pdfNames c2GoodParent ++ pdfNames c2GoodLeaf,
      slash ∉ pdf_filename_safe fn) ∧
    ∀ w ∈ (process_content (str "crs") false (str "http://s") exNet200
        c2GoodParent (str "/base") 0 false ⟨[], [], []⟩).writes,
      w.1 ≠ 1 → dirname w.2 = pjoin (str "/base") c2GoodParent.title_safe :=
  ⟨rfl, rfl, rfl, by decide,
    C2_theorem (str "crs") false (str "http://s") exNet200 c2GoodParent
      c2GoodLeaf (str "/base") 0 false [] rfl rfl rfl (by decide)⟩

/-! ## Claim C8 — failed fetches stay out of the rewrite mapping -/

/-- The rewrite mapping determined by the per-resource results: the
(reference, local path) pairs of the successful fetches. -/
def rewriteMapping (results : List (Resource × Option Str)) :
    List (Resource × Str) :=
  results.filterMap (fun p => p.2.map (fun lp => (p.1, lp)))

theorem process_resources_allFail (site base folder : Str) (net : Net)
    (hnet : ∀ u, net.status u ≠ 200) :
    ∀ (rs : List Resource) (f w : List (Nat × Str)) (mb : Str)
      (out : List (Resource × Option Str)),
      (process_resources site base folder net rs ⟨[], f, w⟩ mb out).2.1 = mb ∧
      (process_resources site base folder net rs ⟨[], f, w⟩ mb out).2.2 =
        out ++ rs.map (fun r => (r, none))
  | [], f, w, mb, out => by simp [process_resources]
  | r :: rest, f, w, mb, out => by
    have hstep : ∃ f', download_resource site r.url r.filename folder net
        ⟨[], f, w⟩ = (⟨[], f', w⟩, none) := by
      rw [download_resource]
      rcases hu : (if r.url.head? == some slash then some (site ++ r.url)
        else if (str "http").isPrefixOf r.url then some r.url else none) with
        _ | url
      · exact ⟨f, rfl⟩
      · simp only []
        have : isfile ([] : List (Str × Str)) (pjoin folder (sanitize_filename
            (match r.filename with
             | some fn => if fn ≠ [] then fn else deriveFilename url
             | none => deriveFilename url))) = false := rfl
        simp only [this, Bool.false_eq_true, if_false, hnet url, if_neg]
        exact ⟨f ++ [(1, url)], rfl⟩
    rcases hstep with ⟨f', hf'⟩
    rw [process_resources, hf']
    simp only []
    have ih := process_resources_allFail site base folder net hnet rest f' w mb
      (out ++ [(r, none)])
    refine ⟨ih.1, ?_⟩
    rw [ih.2]
    simp

theorem replaceGo_of_not_contains (old new : Str) :
    ∀ (fuel : Nat) (s : Str), containsSub old s = false →
      replaceGo fuel old new s = s
  | 0, _, _ => rfl
  | _ + 1, [], _ => rfl
  | fuel + 1, c :: t, h => by
    rw [containsSub] at h
    rcases Bool.or_eq_false_iff.mp h with ⟨hp, hc⟩
    rw [replaceGo,
      if_neg (fun hand => by rw [hp] at hand; exact Bool.false_ne_true hand.2)]
    exact congrArg (c :: ·) (replaceGo_of_not_contains old new fuel t hc)

theorem py_replace_of_not_contains (s old new : Str)
    (h : containsSub old s = false) : py_replace s old new = s :=
  replaceGo_of_not_contains old new (s.length + 1) s h

theorem replace4_of_not_contains (mb old new : Str)
    (h1 : containsSub (str "href=" ++ [dq] ++ old ++ [dq]) mb = false)
    (h2 : containsSub (str "href=" ++ [sq] ++ old ++ [sq]) mb = false)
    (h3 : containsSub (str "src=" ++ [dq] ++ old ++ [dq]) mb = false)
    (h4 : containsSub (str "src=" ++ [sq] ++ old ++ [sq]) mb = false) :
    replace4 mb old new = mb := by
  simp only [replace4]
  rw [py_replace_of_not_contains _ _ _ h1, py_replace_of_not_contains _ _ _ h2,
    py_replace_of_not_contains _ _ _ h3, py_replace_of_not_contains _ _ _ h4]

/-- A successful fetch of a non-image reference whose entity-decoded
URL has no verbatim `href=`/`src=` attribute occurrence in the body —
e.g. because the markup spells the URL with entities such as `&amp;` —
is recorded in the results with its local path, yet the body comes
back completely unchanged: the textual replaces only ever touch
verbatim occurrences of the stored URL. -/
theorem process_resources_skip_escaped (site base folder mb : Str) (net : Net)
    (r : Resource) (lp : Str) (s : St) (out : List (Resource × Option Str))
    (himg : ((r.rtype == str "attachment") &&
      (str "image/").isPrefixOf r.mime) = false)
    (hfetch : (download_resource site r.url r.filename folder net s).2 = some lp)
    (h1 : containsSub (str "href=" ++ [dq] ++ r.url ++ [dq]) mb = false)
    (h2 : containsSub (str "href=" ++ [sq] ++ r.url ++ [sq]) mb = false)
    (h3 : containsSub (str "src=" ++ [dq] ++ r.url ++ [dq]) mb = false)
    (h4 : containsSub (str "src=" ++ [sq] ++ r.url ++ [sq]) mb = false) :
    (process_resources site base folder net [r] s mb out).2.1 = mb ∧
    (process_resources site base folder net [r] s mb out).2.2 =
      out ++ [(r, some lp)] := by
  rw [process_resources, hfetch]
  simp only [himg, Bool.false_eq_true, if_false,
    replace4_of_not_contains mb r.url (base ++ str "_files/" ++ lp) h1 h2 h3 h4]
  rw [process_resources]
  exact ⟨rfl, rfl⟩

/-- The C8 example oracle: the first image's URL answers 200, the
second answers 404. -/
def c8Net : Net :=
  ⟨fun u => if u = str "http://h/a/p1.png" then 200 else 404, fun _ => str "B"⟩

/-- The reference whose fetch succeeds. -/
def c8R1 : Resource := ⟨str "http://h/a/p1.png", none, str "image", []⟩

/-- The reference whose fetch fails with 404. -/
def c8R2 : Resource := ⟨str "http://h/b/p2.png", none, str "image", []⟩

/-- The example body referencing both images. -/
def c8Body : Str :=
  str "<img src=\"http://h/a/p1.png\"> <img src=\"http://h/b/p2.png\">"

/-- The rewrite loop run on the example. -/
def c8Out : St × Str × List (Resource × Option Str) :=
  process_resources (str "http://s") (str "Page") (str "/d/Page_files") c8Net
    [c8R1, c8R2] ⟨[], [], []⟩ c8Body []

/-- A body whose one image URL is spelled with an HTML entity
(`&amp;`): the locator stores the entity-decoded URL, so the textual
replaces will never find it verbatim. -/
def c8EscBody : Str := str "<img src=\"/i/a.png?x=1&amp;y=2\">"

/-- The reference the locator extracts from `c8EscBody` — note the
decoded `&` in the URL. -/
def c8EscRes : Resource := ⟨str "/i/a.png?x=1&y=2", none, str "image", []⟩

/-- The rewrite loop run over `c8EscBody` with an all-200 oracle. -/
def c8EscOut : St × Str × List (Resource × Option Str) :=
  process_resources (str "http://s") (str "Page") (str "/d/Page_files")
    exNet200 (extract_resources_from_html c8EscBody (str "http://s"))
    ⟨[], [], []⟩ c8EscBody []

/-- C8 counterexample: the claim's success clause — "every
successfully fetched reference's URL is rewritten to its local path" —
is false.  The locator extracts the entity-decoded URL
`/i/a.png?x=1&y=2` from `c8EscBody`, the fetch succeeds and the
reference enters the results (and hence the rewrite mapping) with
local path `a.png`, yet the rewritten body is the original body
unchanged: it still carries the entity-escaped remote URL and contains
no occurrence of the local path, because `str.replace` searches for
the decoded URL verbatim and the markup spells it with `&amp;`. -/
theorem C8_counterexample :
    extract_resources_from_html c8EscBody (str "http://s") = [c8EscRes] ∧
    c8EscOut.2.2 = [(c8EscRes, some (str "a.png"))] ∧
    rewriteMapping c8EscOut.2.2 = [(c8EscRes, str "a.png")] ∧
    c8EscOut.2.1 = c8EscBody ∧
    containsSub (str "src=\"/i/a.png?x=1&amp;y=2\"") c8EscOut.2.1 = true ∧
    containsSub (str "Page_files/a.png") c8EscOut.2.1 = false :=
  ⟨by decide, by decide, by decide, by decide, by decide, by decide⟩

/-- C8 (amended): a reference whose fetch result is a failure marker
is absent from the rewrite mapping and contributes no rewrite —
universally, when every fetch fails the body is returned unchanged and
the mapping stays empty, so every failed reference's original remote
URL survives; a successfully fetched reference enters the results with
its local path, but its URL is rewritten only where the entity-decoded
URL stored in the reference occurs verbatim in an `href=`/`src=`
attribute — universally, a successful non-image reference with no such
verbatim occurrence leaves the body completely unchanged (the
counterexample's `&amp;` case).  On the concrete mixed 200/404 example
the 404 reference is absent from the mapping and its original remote
URL survives verbatim while the successful one maps to its local path,
whose verbatim occurrence is rewritten. -/
theorem C8_theorem :
    (∀ (site base folder mb : Str) (net : Net) (r : Resource) (lp : Str)
        (s : St) (out : List (Resource × Option Str)),
        ((r.rtype == str "attachment") &&
          (str "image/").isPrefixOf r.mime) = false →
        (download_resource site r.url r.filename folder net s).2 = some lp →
        containsSub (str "href=" ++ [dq] ++ r.url ++ [dq]) mb = false →
        containsSub (str "href=" ++ [sq] ++ r.url ++ [sq]) mb = false →
        containsSub (str "src=" ++ [dq] ++ r.url ++ [dq]) mb = false →
        containsSub (str "src=" ++ [sq] ++ r.url ++ [sq]) mb = false →
        (process_resources site base folder net [r] s mb out).2.1 = mb ∧
        (process_resources site base folder net [r] s mb out).2.2 =
          out ++ [(r, some lp)]) ∧
    (∀ (rs : List Resource) (site base folder mb : Str) (net : Net)
        (f w : List (Nat × Str)) (out : List (Resource × Option Str)),
        (∀ u, net.status u ≠ 200) →
        (process_resources site base folder net rs ⟨[], f, w⟩ mb out).2.1 = mb ∧
        rewriteMapping
            (process_resources site base folder net rs ⟨[], f, w⟩ mb out).2.2 =
          rewriteMapping out) ∧
    c8Out.2.2 = [(c8R1, some (str "p1.png")), (c8R2, none)] ∧
    rewriteMapping c8Out.2.2 = [(c8R1, str "p1.png")] ∧
    containsSub (str "src=" ++ [dq] ++ str "http://h/b/p2.png" ++ [dq])
      c8Out.2.1 = true ∧
    containsSub (str "src=" ++ [dq] ++ str "Page_files/p1.png" ++ [dq])
      c8Out.2.1 = true ∧
    containsSub (str "src=" ++ [dq] ++ str "http://h/a/p1.png" ++ [dq])
      c8Out.2.1 = false := by
  refine ⟨?_, ?_, by decide, by decide, by decide, by decide, by decide⟩
  · intro site base folder mb net r lp s out himg hfetch h1 h2 h3 h4
    exact process_resources_skip_escaped site base folder mb net r lp s out
      himg hfetch h1 h2 h3 h4
  · intro rs site base folder mb net f w out hnet
    have h := process_resources_allFail site base folder net hnet rs f w mb out
    refine ⟨h.1, ?_⟩
    rw [h.2]
    simp [rewriteMapping, List.filterMap_append, List.filterMap_map]

/-- An oracle that always fails. -/
def c8FailNet : Net := ⟨fun _ => 404, fun _ => []⟩

/-- C8 witness: the skip-on-no-verbatim-occurrence conjunct applied at
a concrete successful reference and occurrence-free body, and the
all-fail conjunct applied at a concrete failing oracle. -/
theorem C8_witness :
    ((process_resources (str "http://s") (str "B") (str "/f") exNet200 [c8R2]
        ⟨[], [], []⟩ (str "<p>hi</p>") []).2.1 = str "<p>hi</p>" ∧
      (process_resources (str "http://s") (str "B") (str "/f") exNet200 [c8R2]
        ⟨[], [], []⟩ (str "<p>hi</p>") []).2.2 =
        [] ++ [(c8R2, some (str "p2.png"))]) ∧
    (process_resources (str "s") (str "B") (str "/f") c8FailNet [c8R2]
        ⟨[], [], []⟩ (str "<p>hi</p>") []).2.1 = str "<p>hi</p>" ∧
    rewriteMapping (process_resources (str "s") (str "B") (str "/f") c8FailNet
        [c8R2] ⟨[], [], []⟩ (str "<p>hi</p>") []).2.2 = rewriteMapping [] :=
  ⟨C8_theorem.1 (str "http://s") (str "B") (str "/f") (str "<p>hi</p>")
      exNet200 c8R2 (str "p2.png") ⟨[], [], []⟩ [] (by decide) (by decide)
      (by decide) (by decide) (by decide) (by decide),
    C8_theorem.2.1 [c8R2] (str "s") (str "B") (str "/f") (str "<p>hi</p>")
      c8FailNet [] [] [] (fun u => by simp [c8FailNet])⟩

end Esprit



